import Mathlib

/-!
Verification development for the JBeam editor's table-schema processor
(`jbeam/table_schema.py`) and structural differ/patcher (`export_vehicle.py`).

The Python code is shallowly embedded: Python values are modelled by the
mutual inductive `PyVal`/`PyList`/`PyEntries` (dicts as insertion-ordered
association maps, which is how CPython dicts behave), Python exceptions by
`Except Unit`, and in-place mutation by explicit state passing.  Python
floats are modelled as exact rationals represented by an integer numerator
and a natural denominator (`PyVal.pfloat num den` denotes `num / den`);
`ctypes.c_float` is modelled by exact round-to-nearest-even conversion to an
IEEE-754 binary32 significand/exponent pair (`F32`), which agrees with the
real conversion throughout the normal (non-overflowing, non-denormal) range
— the only range exercised by vehicle data.
-/

/-- Dictionary key: Python strings, ints, non-integral floats, `None`, and
the `jbeam_utils.Metadata` class object (which the schema processor uses as
a dict key).  Integral floats hash and compare equal to their integer value
in Python and are therefore mapped to `ki`; a non-integral float key is
kept as its numerator/denominator representation (assumed in lowest terms —
Python floats have one canonical value). -/
inductive PyKey where
  | ks (s : String)
  | ki (n : Int)
  | kf (num : Int) (den : Nat)
  | knone
  | kmeta
deriving DecidableEq, Repr

mutual

/-- A Python value as handled by the embedded code. -/
inductive PyVal where
  | pstr (s : String)
  | pint (n : Int)
  | pfloat (num : Int) (den : Nat)
  | pbool (b : Bool)
  | pnone
  | plist (l : PyList)
  | pdict (d : PyEntries)
  /-- An instance of `jbeam_utils.Metadata` (a dict-like provenance map). -/
  | pmeta (m : PyEntries)
deriving DecidableEq, Repr

/-- A Python list of values. -/
inductive PyList where
  | nil
  | cons (hd : PyVal) (tl : PyList)
deriving DecidableEq, Repr

/-- A Python dict as an insertion-ordered association map. -/
inductive PyEntries where
  | enil
  | econs (k : PyKey) (v : PyVal) (tl : PyEntries)
deriving DecidableEq, Repr

end

namespace PyList

/-- Length of a Python list. -/
def length : PyList → Nat
  | .nil => 0
  | .cons _ t => length t + 1

/-- Zero-based element access. -/
def get? : PyList → Nat → Option PyVal
  | .nil, _ => none
  | .cons h _, 0 => some h
  | .cons _ t, n + 1 => get? t n

/-- `list.append(v)`. -/
def append (l : PyList) (v : PyVal) : PyList :=
  match l with
  | .nil => .cons v .nil
  | .cons h t => .cons h (append t v)

/-- Last element (`list[-1]` when nonempty). -/
def getLast? : PyList → Option PyVal
  | .nil => none
  | .cons h .nil => some h
  | .cons _ (.cons h t) => getLast? (.cons h t)

/-- `del list[i]` (no-op when out of range, which the embedded code never
relies on: every deletion site is in range). -/
def eraseAt : PyList → Nat → PyList
  | .nil, _ => .nil
  | .cons _ t, 0 => t
  | .cons h t, n + 1 => .cons h (eraseAt t n)

/-- Build a `PyList` from a Lean list (construction convenience). -/
def ofList : List PyVal → PyList
  | [] => .nil
  | h :: t => .cons h (ofList t)

end PyList

/-- Python list indexing `l[n]` including the negative-index wrap-around;
`none` models `IndexError`. -/
def pyListGet (l : PyList) (n : Int) : Option PyVal :=
  let m : Int := if n < 0 then n + l.length else n
  if 0 ≤ m then l.get? m.toNat else none

namespace PyEntries

/-- Number of entries. -/
def length : PyEntries → Nat
  | .enil => 0
  | .econs _ _ t => length t + 1

/-- Key of the first entry (what `next(iter(d))` yields). -/
def firstKey? : PyEntries → Option PyKey
  | .enil => none
  | .econs k _ _ => some k

/-- Snapshot of the keys in order (`list(d.keys())`). -/
def keysList : PyEntries → List PyKey
  | .enil => []
  | .econs k _ t => k :: keysList t

end PyEntries

/-- Dict lookup `d[k]` / `d.get(k)`: first (and, for genuine Python dicts,
only) binding of the key. -/
def pyLookup (k : PyKey) : PyEntries → Option PyVal
  | .enil => none
  | .econs k' v t => if k = k' then some v else pyLookup k t

/-- Dict assignment `d[k] = v`: overwrite in place when the key is present,
otherwise append at the end — CPython's insertion-order semantics. -/
def dictSet (d : PyEntries) (k : PyKey) (v : PyVal) : PyEntries :=
  match d with
  | .enil => .econs k v .enil
  | .econs k' v' t => if k = k' then .econs k' v t else .econs k' v' (dictSet t k v)

/-- Dict deletion `del d[k]` / the removal part of `d.pop(k)`. -/
def dictErase (d : PyEntries) (k : PyKey) : PyEntries :=
  match d with
  | .enil => .enil
  | .econs k' v' t => if k = k' then t else .econs k' v' (dictErase t k)

/-- `base.update(other)`: fold the entries of `other` into `base` in order. -/
def dictUpdate (base other : PyEntries) : PyEntries :=
  match other with
  | .enil => base
  | .econs k v t => dictUpdate (dictSet base k v) t

mutual

/-- Python `==` on values: numbers compare by exact value across the
`int`/`float`/`bool` types, strings and `None` by identity of content,
lists elementwise, dicts by key set and per-key value equality (order
insensitive; CPython dicts cannot contain duplicate keys, which this model
assumes for dict operands).  Values of different non-numeric kinds are
unequal. -/
def pyEq : PyVal → PyVal → Bool
  | .pstr a, .pstr b => a = b
  | .pnone, .pnone => true
  | .plist a, .plist b => pyEqL a b
  | .pdict a, .pdict b => pyEqD a b && pyKeysSub b a
  | .pmeta a, .pmeta b => pyEqD a b && pyKeysSub b a
  | .pint a, .pint b => a = b
  | .pint a, .pfloat n d => a * d = n
  | .pint a, .pbool b => a = (if b then 1 else 0)
  | .pfloat n d, .pint b => n = b * d
  | .pfloat n d, .pfloat n' d' => n * d' = n' * d
  | .pfloat n d, .pbool b => n = (if b then 1 else 0) * d
  | .pbool a, .pint b => (if a then 1 else 0 : Int) = b
  | .pbool a, .pfloat n d => (if a then 1 else 0 : Int) * d = n
  | .pbool a, .pbool b => a = b
  | _, _ => false

/-- Elementwise equality of Python lists. -/
def pyEqL : PyList → PyList → Bool
  | .nil, .nil => true
  | .cons x xs, .cons y ys => pyEq x y && pyEqL xs ys
  | _, _ => false

/-- Every entry of the first map is matched by an equal value in the second. -/
def pyEqD : PyEntries → PyEntries → Bool
  | .enil, _ => true
  | .econs k v t, b =>
    (match pyLookup k b with
     | some w => pyEq v w
     | none => false) && pyEqD t b

/-- Every key of the first map is present in the second. -/
def pyKeysSub : PyEntries → PyEntries → Bool
  | .enil, _ => true
  | .econs k _ t, b => (pyLookup k b).isSome && pyKeysSub t b

end

/-- Python truthiness of a value. -/
def pyTruthy : PyVal → Bool
  | .pstr s => s ≠ ""
  | .pint n => n ≠ 0
  | .pfloat n _ => n ≠ 0
  | .pbool b => b
  | .pnone => false
  | .plist l => l ≠ .nil
  | .pdict d => d ≠ .enil
  | .pmeta m => m ≠ .enil

/-- The dict key a Python value hashes to, for the value kinds that occur as
subscripts here.  Booleans hash equal to their integer value (CPython).
`none` models the kinds that either are unhashable (`TypeError`) or cannot
match any key present in the embedded data. -/
def pyKeyOf : PyVal → Option PyKey
  | .pstr s => some (.ks s)
  | .pint n => some (.ki n)
  | .pbool b => some (.ki (if b then 1 else 0))
  | .pfloat n d =>
    if d ≠ 0 then (if n % d = 0 then some (.ki (n / d)) else some (.kf n d)) else none
  | .pnone => some .knone
  | _ => none

/-- Python subscript `container[key]`: dict lookup (and the dict-like
`Metadata`), list indexing with negative wrap-around, and string indexing
(yielding a one-character string).  `none` models the raised
`KeyError`/`IndexError`/`TypeError`. -/
def pyIndex (container key : PyVal) : Option PyVal :=
  match container with
  | .pdict d => (pyKeyOf key).bind fun k => pyLookup k d
  | .pmeta d => (pyKeyOf key).bind fun k => pyLookup k d
  | .plist l =>
    match key with
    | .pint n => pyListGet l n
    | .pbool b => pyListGet l (if b then 1 else 0)
    | _ => none
  | .pstr s =>
    match key with
    | .pint n =>
      let m : Int := if n < 0 then n + s.length else n
      if 0 ≤ m ∧ m.toNat < s.length then some (.pstr (String.mk [s.data.getD m.toNat ' '])) else none
    | _ => none
  | _ => none

/-! ### Numeric kernels: `ctypes.c_float` and `'%.4g'` formatting -/

/-- Round-to-nearest-even integer division (`n / d` rounded to the nearest
integer, ties to even). -/
def rneDiv (n d : Nat) : Nat :=
  let q := n / d
  let r := n % d
  if 2 * r < d then q
  else if d < 2 * r then q + 1
  else if q % 2 = 0 then q else q + 1

/-- Fuel-driven bit length (`bitlenAux fuel n`; `fuel ≥ n` suffices). -/
def bitlenAux : Nat → Nat → Nat
  | 0, _ => 0
  | fuel + 1, n => if n = 0 then 0 else bitlenAux fuel (n / 2) + 1

/-- Number of binary digits of `n` (0 for 0). -/
def bitlen (n : Nat) : Nat := bitlenAux n n

/-- An IEEE-754 binary32 value in the normal range, as the exact rational
`m * 2 ^ e` with canonical significand (`2^23 ≤ |m| < 2^24` when nonzero).
Exponents are unbounded: overflow to infinity and denormal flushing are not
modelled (they never arise from vehicle data). -/
structure F32 where
  m : Int
  e : Int
deriving DecidableEq, Repr

/-- Does `2 ^ e ≤ n / den` hold (for `n, den > 0`)? -/
def le2 (n den : Nat) (e : Int) : Bool :=
  if 0 ≤ e then den * 2 ^ e.toNat ≤ n else den ≤ n * 2 ^ (-e).toNat

/-- Model of `ctypes.c_float(num / den).value` (the source's `to_c_float`):
round the exact rational to the nearest binary32 value, ties to even.
A zero numerator (or the junk denominator 0) yields zero. -/
def to_c_float (num : Int) (den : Nat) : F32 :=
  if num = 0 ∨ den = 0 then ⟨0, 0⟩
  else
    let n := num.natAbs
    let e0 : Int := (bitlen n : Int) - (bitlen den : Int)
    let e := if le2 n den e0 then e0 else e0 - 1
    let sh : Int := 23 - e
    let m0 := if 0 ≤ sh then rneDiv (n * 2 ^ sh.toNat) den else rneDiv n (den * 2 ^ (-sh).toNat)
    let m1 := if m0 = 2 ^ 24 then 2 ^ 23 else m0
    let e1 := if m0 = 2 ^ 24 then e + 1 else e
    ⟨if num < 0 then -(m1 : Int) else (m1 : Int), e1 - 23⟩

/-- `to_c_float` of a numeric `PyVal` (only ever applied to ints and
floats; other kinds map to a junk zero). -/
def toCFloatV : PyVal → F32
  | .pint n => to_c_float n 1
  | .pfloat n d => to_c_float n d
  | _ => ⟨0, 0⟩

/-- Fuel-driven count of decimal digits of `n` (1 for 0 when fuel remains). -/
def digits10Aux : Nat → Nat → Nat
  | 0, _ => 0
  | fuel + 1, n => if n < 10 then 1 else digits10Aux fuel (n / 10) + 1

/-- Number of decimal digits of `n` (1 for 0). -/
def digits10 (n : Nat) : Nat := digits10Aux (n + 1) n

/-- Strip trailing decimal zeros (fuel-driven). -/
def stripTZAux : Nat → Nat → Nat
  | 0, n => n
  | fuel + 1, n => if n ≠ 0 ∧ n % 10 = 0 then stripTZAux fuel (n / 10) else n

/-- Strip trailing decimal zeros of `n`. -/
def stripTZ (n : Nat) : Nat := stripTZAux n n

/-- Smallest `k ≥ 1` with `d ≤ a * 10 ^ k` (fuel-driven search; for
`1 ≤ a < d`, the decimal exponent of `a / d` is `-k`). -/
def findKAux (a d : Nat) : Nat → Nat → Nat
  | 0, k => k
  | fuel + 1, k => if d ≤ a * 10 ^ k then k else findKAux a d fuel (k + 1)

/-- Decimal exponent search wrapper. -/
def findK (a d : Nat) : Nat := findKAux a d d 1

/-- Length of the C-format string `'%.4g' % (a / d)` for `0 ≤ a < d`
(4 significant digits, trailing zeros stripped, scientific notation below
`1e-4`, zero-padded two-digit exponent field). -/
def g4len (a d : Nat) : Nat :=
  if a = 0 then 1
  else
    let k := findK a d
    let m := rneDiv (a * 10 ^ (k + 3)) d
    let m' := if m = 10000 then 1000 else m
    let k' := if m = 10000 then k - 1 else k
    if k' = 0 then 1
    else
      let t := digits10 (stripTZ m')
      if k' ≤ 4 then 2 + (k' - 1) + t
      else (if t = 1 then 1 else t + 1) + 2 + max 2 (digits10 k')

/-- Model of the source's `get_float_precision(val)` for the rational
`num / den`: `min(4, max(len('%.4g' % abs(fval - int(fval))) - 2, 0))`,
where the fractional part of `|num / den|` is `(|num| % den) / den`. -/
def get_float_precision (num : Int) (den : Nat) : Nat :=
  if den = 0 then 0 else min 4 (g4len (num.natAbs % den) den - 2)

/-! ### Table schema processor (`jbeam/table_schema.py`) -/

/-- Modelled from the spec: `jbeam_utils.Metadata` lives in
`jbeam/utils.py`, which is not among the provided sources.  Per the spec it
is a dict-like per-field provenance map whose `merge` folds another
metadata map into this one with defined-wins-over-default precedence; we
model `self.merge(other)` as letting `other`'s entries override `self`'s,
and a fresh `Metadata()` as the empty map.  No settled claim depends on the
merge direction: in every claim's scope all metadata maps are empty. -/
def metaMerge (self other : PyEntries) : PyEntries := dictUpdate self other

/-- The memo cache keyed by `(pickle.dumps(jbeam_table),
pickle.dumps(input_options))`; pickled byte strings compare equal exactly
when the structures are equal, so the key is modelled structurally. -/
abbrev Memo := List ((PyList × PyVal) × (PyEntries × Int))

/-- Memo lookup. -/
def memoLookup (memo : Memo) (k : PyList × PyVal) : Option (PyEntries × Int) :=
  match memo with
  | [] => none
  | (k', v) :: t => if k = k' then some v else memoLookup t k

/-- First index `rk ≥ lo` in the list holding a dict, with that dict
(the scan for an inline per-row options map, source lines 161-184). -/
def findTrailingDict : PyList → Nat → Option (Nat × PyEntries)
  | .nil, _ => none
  | .cons h t, 0 =>
    match h with
    | .pdict d => some (0, d)
    | _ => (findTrailingDict t 0).map fun (i, d) => (i + 1, d)
  | .cons _ t, lo + 1 => (findTrailingDict t lo).map fun (i, d) => (i + 1, d)

/-- Rewrite integer-indexed metadata keys to header field names
(source lines 172-174): for each int key `var` in the snapshot,
`_data[header[var]] = _data.pop(var)`.  `none` models the raised
`IndexError`/`TypeError`. -/
def rewriteIntKeys (header : PyList) : List PyKey → PyEntries → Option PyEntries
  | [], m => some m
  | .ki n :: rest, m =>
    match pyListGet header n with
    | none => none
    | some hv =>
      match pyKeyOf hv, pyLookup (.ki n) m with
      | some kk, some v => rewriteIntKeys header rest (dictSet (dictErase m (.ki n)) kk v)
      | _, _ => none
  | _ :: rest, m => rewriteIntKeys header rest m

/-- Positional cell assignment (source lines 187-193): for each cell at
index `rk`, assign `new_row[header[rk]] = rv` when `rk < header_size`
(cells past the header only produce a warning).  `none` models a raised
`TypeError` (unhashable header cell). -/
def assignCells (header : PyList) (hsz : Nat) (row : PyEntries) : PyList → Nat → Option PyEntries
  | .nil, _ => some row
  | .cons rv t, rk =>
    if rk ≥ hsz then assignCells header hsz row t (rk + 1)
    else
      match header.get? rk with
      | none => none
      | some hv =>
        match pyKeyOf hv with
        | none => none
        | some kk => assignCells header hsz (dictSet row kk rv) t (rk + 1)

/-- One fully processed sequence row (source lines 140-204 minus the length
check): returns the mutated row cells, the id key and the row map to store.
`none` models a raised exception. -/
def procSeqRow (header : PyList) (hsz : Nat) (opts : PyEntries) (rowKey : Nat)
    (cells : PyList) : Option (PyList × PyKey × PyEntries) :=
  let cells1 :=
    if cells.length = hsz then cells.append (.pdict (.econs .kmeta (.pmeta .enil) .enil))
    else cells
  let step1 : Option (PyList × PyEntries) :=
    match findTrailingDict cells1 hsz with
    | none => some (cells1, opts)
    | some (rk, dv) =>
      let dv1 := if (pyLookup .kmeta dv).isNone then dictSet dv .kmeta (.pmeta .enil) else dv
      match pyLookup .kmeta dv1, pyLookup .kmeta opts with
      | some (.pmeta rvm), some (.pmeta nrm) =>
        match rewriteIntKeys header (metaMerge nrm rvm).keysList (metaMerge nrm rvm) with
        | none => none
        | some nrm2 =>
          some (cells1.eraseAt rk, dictSet (dictUpdate opts dv1) .kmeta (.pmeta nrm2))
      | _, _ => none
  match step1 with
  | none => none
  | some (cells2, row1) =>
    match assignCells header hsz row1 cells2 0 with
    | none => none
    | some row2 =>
      match pyLookup (.ks "id") row2 with
      | some idv =>
        match pyKeyOf idv with
        | none => none
        | some idk => some (cells2, idk, dictErase (dictSet row2 (.ks "name") idv) (.ks "id"))
      | none => some (cells2, .ki rowKey, row2)

/-- The row walk of `process_table_with_schema_destructive` (source lines
121-208): returns the mutated row list, the final output entries and the
returned count (`-1` on an invalid row; the rows after the offending one
are left untouched, matching the early `return`).  `none` models a raised
exception. -/
def procRows (header : PyList) (hsz : Nat) : PyEntries → PyEntries → Nat → Nat → PyList →
    Option (PyList × PyEntries × Int)
  | _, out, cnt, _, .nil => some (.nil, out, (cnt : Int))
  | opts, out, cnt, key, .cons r rs =>
    match r with
    | .pdict d =>
      let d1 := if (pyLookup .kmeta d).isNone then dictSet d .kmeta (.pmeta .enil) else d
      match pyLookup .kmeta d1, pyLookup .kmeta opts with
      | some (.pmeta rm), some (.pmeta om) =>
        let opts2 := dictSet (dictUpdate opts d1) .kmeta (.pmeta (metaMerge om rm))
        match procRows header hsz opts2 out cnt (key + 1) rs with
        | none => none
        | some (rs', out', ret) => some (.cons (.pdict d1) rs', out', ret)
      | _, _ => none
    | .plist cells =>
      if hsz + 1 < cells.length then some (.cons r rs, out, -1)
      else
        match procSeqRow header hsz opts key cells with
        | none => none
        | some (cells2, idk, rowMap) =>
          match procRows header hsz opts (dictSet out idk (.pdict rowMap)) (cnt + 1) (key + 1) rs with
          | none => none
          | some (rs', out', ret) => some (.cons (.plist cells2) rs', out', ret)
    | _ => some (.cons r rs, out, -1)

/-- The observable outcome of one `process_table_with_schema_destructive`
call: the memo cache afterwards, the `jbeam_table` object afterwards (the
function mutates it in place), the popped header row object afterwards
(`none` when the memo was hit or the header was not a list, in which case
the table is untouched), the entries added to the caller's `new_dict`
(which starts empty at the only call site), and the returned count. -/
structure ProcOut where
  memo : Memo
  table : PyList
  header : Option PyList
  out : PyEntries
  ret : Int
deriving DecidableEq, Repr

/-- Model of `process_table_with_schema_destructive(jbeam_table, new_dict,
input_options)` (source lines 94-211).  `new_dict` starts empty, matching
the only call site; `input_options` is `pnone` for Python `None`.
`Except.error` models a raised exception (empty table, empty header,
unhashable keys, or a malformed options object). -/
def process_table_with_schema_destructive (memo : Memo) (jbeamTable : PyList)
    (inputOptions : PyVal) : Except Unit ProcOut :=
  match memoLookup memo (jbeamTable, inputOptions) with
  | some (d, n) => .ok ⟨memo, jbeamTable, none, d, n⟩
  | none =>
    match jbeamTable with
    | .nil => .error ()
    | .cons headerV rest =>
      match headerV with
      | .plist h0 =>
        let hsz := h0.length
        match h0.getLast? with
        | none => .error ()
        | some lastV =>
          let header := if pyEq lastV (.pstr "options") then h0 else h0.append (.pstr "options")
          let base : Except Unit PyEntries :=
            match inputOptions with
            | .pnone => .ok .enil
            | .pdict d => .ok d
            | _ => .error ()
          match base with
          | .error _ => .error ()
          | .ok opts0 =>
            let opts1 :=
              if ¬ pyTruthy ((pyLookup .kmeta opts0).getD .pnone) then
                dictSet opts0 .kmeta (.pmeta .enil)
              else opts0
            match procRows header hsz opts1 .enil 0 0 rest with
            | none => .error ()
            | some (rows', out, ret) =>
              if ret = -1 then .ok ⟨memo, rows', some header, out, -1⟩
              else .ok ⟨((jbeamTable, inputOptions), (out, ret)) :: memo, rows', some header, out, ret⟩
      | _ => .ok ⟨memo, jbeamTable, none, .enil, -1⟩

/-- Model of `convert_dict_to_list_tables(vehicle)` (source lines 214-233):
`none` when the function returns `False` (a section chosen for conversion
holds a non-integer key; the vehicle is then left unchanged, since the
write-back loop is never reached), otherwise the updated vehicle (the
function itself falls through returning `None`). -/
def convert_dict_to_list_tables (vehicle : PyEntries) : Option PyEntries :=
  let rec collectRows : PyEntries → Option PyList
    | .enil => some .nil
    | .econs (.ki _) v t => (collectRows t).map (.cons v)
    | .econs _ _ _ => none
  let rec buildNew : PyEntries → Option (List (PyKey × PyVal))
    | .enil => some []
    | .econs k v t =>
      match v with
      | .pdict d =>
        match d.firstKey? with
        | some (.ki _) =>
          match collectRows d with
          | none => none
          | some rows => (buildNew t).map ((k, .plist rows) :: ·)
        | _ => buildNew t
      | _ => buildNew t
  match buildNew vehicle with
  | none => none
  | some newTables => some (newTables.foldl (fun v kt => dictSet v kt.1 kt.2) vehicle)

/-- Character membership of a string (`c in s`), by direct list scan. -/
def strHasChar (s : String) (c : Char) : Bool := s.data.contains c

/-- Is the first list a prefix of the second? -/
def charsPrefix : List Char → List Char → Bool
  | [], _ => true
  | _ :: _, [] => false
  | a :: as, b :: bs => a == b && charsPrefix as bs

/-- Does the second list contain the first as a contiguous run (Python
substring membership `pat in hay`)? -/
def charsSubstr (pat : List Char) : List Char → Bool
  | [] => charsPrefix pat []
  | b :: bs => charsPrefix pat (b :: bs) || charsSubstr pat bs

/-- Membership test `rv in nodes` as used by `check_node_references`
(source line 250): key lookup for dicts, elementwise `==` for lists,
substring search for strings.  `none` models `TypeError` on an
unsupported container. -/
def pyContains (container : PyVal) (v : PyVal) : Option Bool :=
  match container with
  | .pdict d => (pyKeyOf v).map fun k => (pyLookup k d).isSome
  | .pmeta d => (pyKeyOf v).map fun k => (pyLookup k d).isSome
  | .plist l =>
    let rec anyEq : PyList → Bool
      | .nil => false
      | .cons h t => pyEq h v || anyEq t
    some (anyEq l)
  | .pstr s =>
    match v with
    | .pstr sub => some (charsSubstr sub.data s.data)
    | _ => none
  | _ => none

/-- Is some string-keyed, string-valued entry of the row a dangling node
reference (key contains `:` and the value is not in `nodes`)?  Scanning
stops at the first hit, which coincides with the existential.  `none`
models a raised `TypeError`. -/
def rowIsVirtual (nodes : PyVal) : PyEntries → Option Bool
  | .enil => some false
  | .econs k v t =>
    match k, v with
    | .ks s, .pstr sv =>
      if strHasChar s ':' then
        match pyContains nodes (.pstr sv) with
        | none => none
        | some present => if ¬ present then some true else rowIsVirtual nodes t
      else rowIsVirtual nodes t
    | _, _ => rowIsVirtual nodes t

/-- Model of `check_node_references(vehicle)` (source lines 237-257):
flags rows referencing missing nodes as `__virtual` (every row of every
non-nodes list section when no node table exists).  `none` models a raised
exception (a non-dict row being subscripted or a `TypeError` from the
membership test). -/
def check_node_references (vehicle : PyEntries) : Option PyEntries :=
  let nodes := (pyLookup (.ks "nodes") vehicle).getD .pnone
  let procRow (r : PyVal) : Option PyVal :=
    if pyTruthy nodes then
      match r with
      | .pdict rd =>
        match rowIsVirtual nodes rd with
        | none => none
        | some virt =>
          if virt then some (.pdict (dictSet rd (.ks "__virtual") (.pbool true))) else some (.pdict rd)
      | _ => none
    else
      match r with
      | .pdict rd => some (.pdict (dictSet rd (.ks "__virtual") (.pbool true)))
      | .pmeta rd => some (.pmeta (dictSet rd (.ks "__virtual") (.pbool true)))
      | _ => none
  let rec procTable : PyList → Option PyList
    | .nil => some .nil
    | .cons r t =>
      match procRow r with
      | none => none
      | some r' => (procTable t).map (.cons r')
  let rec go : PyEntries → Option PyEntries
    | .enil => some .enil
    | .econs k v t =>
      if k = .ks "nodes" then (go t).map (.econs k v)
      else
        match v with
        | .plist l =>
          match procTable l with
          | none => none
          | some l' => (go t).map (.econs k (.plist l'))
        | _ => (go t).map (.econs k v)
  go vehicle

/-- Model of `post_process(vehicle)` (source lines 260-264): runs the
sparse-map conversion (discarding its return value — when the conversion
returns `False` the vehicle was left unchanged), then the node-reference
check, and returns `True`.  `Except.error` models a raised exception. -/
def post_process (vehicle : PyEntries) : Except Unit (Bool × PyEntries) :=
  let v1 := (convert_dict_to_list_tables vehicle).getD vehicle
  match check_node_references v1 with
  | none => .error ()
  | some v2 => .ok (true, v2)

/-! ### AST tokens and scalar diffing (`export_vehicle.py`) -/

/-- A token of the SJSON AST (`sjsonast.ASTNode`): a `data_type` string
(`"{"`, `"}"`, `"["`, `"]"`, `":"`, `"\""` for string scalars, `"number"`,
`"wsc"` for separator spans), a `value` (string payloads are `pstr`) and a
number precision. -/
structure ASTNode where
  kind : String
  value : PyVal := .pnone
  precision : Nat := 0
deriving DecidableEq, Repr

/-- Is the value a Python `int` (`type(v) == int`; booleans are excluded,
exactly as the source's strict `type` comparison does)? -/
def isPyInt : PyVal → Bool
  | .pint _ => true
  | _ => false

/-- Is the value a Python `float`? -/
def isPyFloat : PyVal → Bool
  | .pfloat _ _ => true
  | _ => false

/-- Model of `set_number_node(node, val)` (source lines 56-60).  The guard
mirrors the source's precedence:
`(node.data_type == 'number' and type(val) == int) or type(val) == float`. -/
def set_number_node (node : ASTNode) (val : PyVal) : ASTNode :=
  if (node.kind = "number" ∧ isPyInt val) ∨ isPyFloat val then
    { node with
      value := val
      precision :=
        match val with
        | .pint n => get_float_precision n 1
        | .pfloat n d => get_float_precision n d
        | _ => node.precision }
  else node

/-- Walk `data[stack_entry[0]]` down the recorded path, then `data[index]`
(source lines 64-71); `none` models the raised
`KeyError`/`IndexError`/`TypeError`. -/
def pathIndex (data : PyVal) (stack : List (PyVal × Bool)) (index : PyVal) : Option PyVal :=
  match stack with
  | [] => pyIndex data index
  | (k, _) :: rest => (pyIndex data k).bind fun d => pathIndex d rest index

/-- Model of `compare_and_set_value(original, modified, stack, index, node)`
(source lines 63-84): looks the path up in both trees and, when the values
differ — at `c_float` precision for numbers — rewrites the token, returning
the updated token and whether it changed.  `Except.error` models a lookup
raising. -/
def compare_and_set_value (oldTree newTree : PyVal) (stack : List (PyVal × Bool))
    (index : PyVal) (node : ASTNode) : Except Unit (ASTNode × Bool) :=
  match pathIndex oldTree stack index, pathIndex newTree stack index with
  | some oldData, some data =>
    if node.kind = "number" then
      if (¬ isPyInt oldData ∧ ¬ isPyFloat oldData) ∨
         ((isPyInt data ∨ isPyFloat data) ∧
          (toCFloatV oldData ≠ toCFloatV data ∧ ¬ pyEq oldData data)) then
        .ok (set_number_node node data, true)
      else .ok (node, false)
    else
      if ¬ pyEq oldData data then .ok ({ node with value := data }, true)
      else .ok (node, false)
  | _, _ => .error ()

/-! ### Row insertion and deletion (`export_vehicle.py` lines 92-242) -/

/-- Insert at index `i`, clamping like Python's `list.insert`. -/
def listInsertAt (l : List ASTNode) (i : Nat) (a : ASTNode) : List ASTNode :=
  l.take i ++ a :: l.drop i

/-- Remove the element at index `i` (`del l[i]`). -/
def listEraseAt (l : List ASTNode) (i : Nat) : List ASTNode :=
  l.take i ++ l.drop (i + 1)

/-- Remove the index range `[lo, hi)` (`del l[lo:hi]`). -/
def listEraseRange (l : List ASTNode) (lo hi : Nat) : List ASTNode :=
  l.take lo ++ l.drop hi

/-- A string of `n` spaces. -/
def spaces (n : Nat) : String := String.mk (List.replicate n ' ')

/-- The text after the last newline of `s`, when `s` contains one. -/
def afterLastNl (s : String) : Option String :=
  let pre := s.data.reverse.takeWhile (· ≠ '\n')
  if pre.length = s.data.length then none else some (String.mk pre.reverse)

/-- Index of the first `'\n'` of `s` together with a found flag; when no
newline exists the index is `len - 1`, exactly the residue of the source's
`for k, char in enumerate(...)` loop (source lines 125-129 and 199-203). -/
def firstNlIdx (s : String) : Bool × Nat :=
  match s.data.findIdx? (· = '\n') with
  | some k => (true, k)
  | none => (false, s.data.length - 1)

/-- Index of the last `'\n'` of `s`, or `0` when there is none — the residue
of the source's backward scan (lines 215-219). -/
def lastNlIdx (s : String) : Nat :=
  match (s.data.reverse.findIdx? (· = '\n')) with
  | some k => s.data.length - 1 - k
  | none => 0

/-- The indentation-level scan of `add_jbeam_nodes` (source lines 94-112):
walk `j` down while `j > secStart`, and at the first separator token whose
text contains a newline return the number of characters after its last
newline; default `8`.  Out-of-range indices and non-string separator
payloads (neither of which the tokenizer ever produces, nor the scan's call
site reaches) are skipped like newline-free separators. -/
def findIndentLvl (ast : List ASTNode) (secStart : Nat) : Nat → Nat
  | 0 => 8
  | j + 1 =>
    if j + 1 ≤ secStart then 8
    else
      match ast.get? (j + 1) with
      | some node =>
        if node.kind = "wsc" then
          match node.value with
          | .pstr s =>
            match afterLastNl s with
            | some t => t.length
            | none => findIndentLvl ast secStart j
          | _ => findIndentLvl ast secStart j
        else findIndentLvl ast secStart j
      | none => findIndentLvl ast secStart j

/-- The row tokens inserted for one node (source lines 155-163). -/
def newRowTokens (nodeId : String) (pos : (Int × Nat) × (Int × Nat) × (Int × Nat)) :
    List ASTNode :=
  [⟨"[", .pnone, 0⟩,
   ⟨"\"", .pstr nodeId, 0⟩,
   ⟨"wsc", .pstr ", ", 0⟩,
   ⟨"number", .pfloat pos.1.1 pos.1.2, get_float_precision pos.1.1 pos.1.2⟩,
   ⟨"wsc", .pstr ", ", 0⟩,
   ⟨"number", .pfloat pos.2.1.1 pos.2.1.2, get_float_precision pos.2.1.1 pos.2.1.2⟩,
   ⟨"wsc", .pstr ", ", 0⟩,
   ⟨"number", .pfloat pos.2.2.1 pos.2.2.2, get_float_precision pos.2.2.1 pos.2.2.2⟩,
   ⟨"]", .pnone, 0⟩]

/-- The insertion loop of `add_jbeam_nodes` (source lines 143-170):
`afterIdx` is the index of the pending `node_after_entry` token (its text
receives the indent before the first row); later rows are preceded by a
fresh indent separator; rows are comma-separated. -/
def addRowsLoop (indent : String) :
    List (String × ((Int × Nat) × (Int × Nat) × (Int × Nat))) → List ASTNode → Nat →
    Option Nat → List ASTNode × Nat
  | [], ast, i, _ => (ast, i)
  | (nodeId, pos) :: rest, ast, i, afterIdx =>
    let (ast1, i1) :=
      match afterIdx with
      | some ia =>
        (ast.set ia
          (match ast.get? ia with
           | some nd =>
             { nd with value :=
                 match nd.value with
                 | .pstr s => .pstr (s ++ indent)
                 | v => v }
           | none => ⟨"wsc", .pstr indent, 0⟩), i)
      | none => (listInsertAt ast i ⟨"wsc", .pstr indent, 0⟩, i + 1)
    let ast2 := (newRowTokens nodeId pos).foldl
      (fun (p : List ASTNode × Nat) tok => (listInsertAt p.1 p.2 tok, p.2 + 1)) (ast1, i1)
    let (ast3, i3) :=
      if rest ≠ [] then (listInsertAt ast2.1 ast2.2 ⟨"wsc", .pstr ",", 0⟩, ast2.2 + 1)
      else (ast2.1, ast2.2)
    addRowsLoop indent rest ast3 i3 none

/-- The indent string `jbeam_entry_indent = '\n' + ' ' * jbeam_entry_indent_lvl`
prepended before each inserted row (source lines 93-114: the level comes from
the backward separator scan starting at `section_end - 2`). -/
def jbeamEntryIndent (ast : List ASTNode) (secStartIdx secEndIdx : Nat) : String :=
  "\n" ++ spaces (findIndentLvl ast secStartIdx (secEndIdx - 2))

/-- Model of `add_jbeam_nodes(ast_nodes, section_start, section_end,
entry_start, entry_end, nodes_to_add)` (source lines 92-179; the
`entry_start` parameter is unused by the source body).  Returns the mutated
token list and the index the caller resumes from.  `Except.error` models a
raised exception (out-of-range access, or the `NameError` on splitting an
empty separator). -/
def add_jbeam_nodes (ast : List ASTNode) (secStartIdx secEndIdx entryEndIdx : Nat)
    (nodesToAdd : List (String × ((Int × Nat) × (Int × Nat) × (Int × Nat)))) :
    Except Unit (List ASTNode × Nat) :=
  let indent := jbeamEntryIndent ast secStartIdx secEndIdx
  let i0 := entryEndIdx + 1
  match ast.get? i0 with
  | none => .error ()
  | some nodeAfter =>
    let prep : Except Unit (List ASTNode × Option ASTNode × Nat) :=
      if nodeAfter.kind = "wsc" then
        match nodeAfter.value with
        | .pstr s =>
          if s.length = 0 then .error ()
          else
            let fk := firstNlIdx s
            let ast1 := ast.set i0 { nodeAfter with value := .pstr (String.mk (s.data.take fk.2)) }
            let node2 : Option ASTNode :=
              if fk.1 then some ⟨"wsc", .pstr (String.mk (s.data.drop fk.2)), 0⟩ else none
            .ok (ast1, node2, i0 + 1)
        | _ => .error ()
      else
        .ok (listInsertAt ast i0 ⟨"wsc", .pstr "", 0⟩, none, i0 + 1)
    match prep with
    | .error _ => .error ()
    | .ok (ast1, node2, i1) =>
      let (ast2, i2) := addRowsLoop indent nodesToAdd ast1 i1 (some i0)
      let ast3 := match node2 with
        | some nd => listInsertAt ast2 i2 nd
        | none => ast2
      .ok (ast3, i2 + 1)

/-- Model of `delete_jbeam_node(ast_nodes, section_start, entry_start,
entry_end)` (source lines 183-242; the `section_start` parameter is unused
by the source body).  Returns the mutated token list and the index the
caller resumes from.  `Except.error` models a raised exception
(out-of-range access, the `NameError` on an empty separator text, or a
non-string separator payload). -/
def delete_jbeam_node (ast : List ASTNode) (entryStartIdx entryEndIdx : Nat) :
    Except Unit (List ASTNode × Int) :=
  if entryStartIdx = 0 then .error ()
  else
    match ast.get? (entryStartIdx - 1), ast.get? (entryEndIdx + 1) with
    | some prevNode, some nextNode =>
      let leftE : Except Unit Bool :=
        if prevNode.kind = "wsc" then
          match prevNode.value with
          | .pstr s => .ok (¬ strHasChar s '\n')
          | _ => .error ()
        else .ok true
      match leftE with
      | .error _ => .error ()
      | .ok toLeft =>
        let rightE : Except Unit (Bool × Bool × List ASTNode) :=
          if nextNode.kind = "wsc" then
            match nextNode.value with
            | .pstr s =>
              if s.length = 0 then .error ()
              else
                let toRight := ¬ strHasChar s '\n'
                let fk := firstNlIdx s
                let k : Int := if fk.1 ∧ toLeft then (fk.2 : Int) - 1 else (fk.2 : Int)
                if k = (s.data.length : Int) - 1 then
                  .ok (toRight, true, listEraseAt ast (entryEndIdx + 1))
                else
                  .ok (toRight, false,
                    ast.set (entryEndIdx + 1)
                      { nextNode with value := .pstr (String.mk (s.data.drop (k + 1).toNat)) })
            | _ => .error ()
          else .ok (true, false, ast)
        match rightE with
        | .error _ => .error ()
        | .ok (toRight, deletedRight, ast1) =>
          let trimE : Except Unit (List ASTNode) :=
            if ¬ toLeft ∧ ¬ toRight then
              match prevNode.value with
              | .pstr s =>
                if s.length = 0 then .error ()
                else
                  .ok (ast1.set (entryStartIdx - 1)
                    { prevNode with value := .pstr (String.mk (s.data.take (lastNlIdx s + 1))) })
              | _ => .error ()
            else .ok ast1
          match trimE with
          | .error _ => .error ()
          | .ok ast2 =>
            let ast3 := listEraseRange ast2 entryStartIdx (entryEndIdx + 1)
            let i0 : Int := (entryStartIdx : Int) - 1 - (if deletedRight then 1 else 0)
            if i0 < 0 then .error ()
            else
              match ast3.get? i0.toNat, ast3.get? (i0.toNat + 1) with
              | some curr, some nxt =>
                if curr.kind = "wsc" ∧ nxt.kind = "wsc" then
                  match curr.value, nxt.value with
                  | .pstr cs, .pstr ns =>
                    .ok (listEraseAt
                          (ast3.set (i0.toNat + 1) { nxt with value := .pstr (cs ++ ns) })
                          i0.toNat,
                        i0 - 1)
                  | _, _ => .error ()
                else .ok (ast3, i0)
              | _, _ => .error ()
    | _, _ => .error ()

/-! ### The token walk (`update_ast_nodes`, source lines 377-492) -/

/-- The walk's mutable locals: the path stack of `(key-or-index, in_dict)`
pairs, the current container kind, the positional counter, the key-parse
state, the remembered section/entry token indices and the current row's
node id. -/
structure WalkSt where
  stack : List (PyVal × Bool)
  inDict : Bool
  posInArr : Int
  tempDictKey : Option PyVal
  dictKey : Option PyVal
  entryStart : Option Nat
  entryEnd : Option Nat
  secStart : Option Nat
  nodeId : Option PyVal
deriving Repr

/-- The initial walk state (source lines 380-388). -/
def initWalkSt : WalkSt := ⟨[], true, 0, none, none, none, none, none, none⟩

/-- `stack[i][0] == s` (a Python `==` between the recorded key and a
string). -/
def stackKeyIs (stack : List (PyVal × Bool)) (i : Nat) (s : String) : Bool :=
  match stack.get? i with
  | some (k, _) => pyEq k (.pstr s)
  | none => false

/-- `jbeam_node_id in nodes_to_delete` (source line 486): string ids test
key membership, other hashable values never match the string keys, and
unhashable values raise `TypeError` — even against an empty dict. -/
def delMembership (nodeId : Option PyVal) (dels : List String) : Except Unit Bool :=
  match nodeId with
  | none => .ok false
  | some (.plist _) => .error ()
  | some (.pdict _) => .error ()
  | some (.pmeta _) => .error ()
  | some (.pstr s) => .ok (dels.contains s)
  | some _ => .ok false

/-- The first phase of one iteration of `update_ast_nodes`'s walk (source
lines 397-455): the dictionary/array key-value machinery, nodes-section id
capture and the scalar diffing call on value tokens.  Returns the updated
locals and token list. -/
def stepPhase1 (before after : PyVal) (part : String)
    (st : WalkSt) (ast : List ASTNode) (i : Nat) (node : ASTNode) :
    Except Unit (WalkSt × List ASTNode) :=
          if st.inDict then
            if node.kind = "\x7b" ∨ node.kind = "[" then
              let st1 :=
                match st.dictKey with
                | some k =>
                  { st with stack := st.stack ++ [(k, st.inDict)], inDict := node.kind = "\x7b" }
                | none => st
              .ok ({ st1 with posInArr := 0, tempDictKey := none, dictKey := none }, ast)
            else if node.kind ≠ "\x7d" ∧ node.kind ≠ "]" then
              if st.tempDictKey = none then
                if node.kind = "\"" then .ok ({ st with tempDictKey := some node.value }, ast)
                else .ok (st, ast)
              else if node.kind = ":" then .ok ({ st with dictKey := st.tempDictKey }, ast)
              else
                match st.dictKey with
                | some dk =>
                  match compare_and_set_value before after st.stack dk node with
                  | .error _ => .error ()
                  | .ok (node', _) =>
                    .ok ({ st with tempDictKey := none, dictKey := none }, ast.set i node')
                | none => .ok (st, ast)
            else .ok (st, ast)
          else
            if node.kind = "\x7b" ∨ node.kind = "[" then
              .ok ({ st with
                      stack := st.stack ++ [(.pint st.posInArr, st.inDict)]
                      inDict := node.kind = "\x7b"
                      posInArr := 0
                      tempDictKey := none
                      dictKey := none }, ast)
            else if node.kind ≠ "\x7d" ∧ node.kind ≠ "]" then
              let stepA : Except Unit WalkSt :=
                if st.stack.length = 3 ∧ stackKeyIs st.stack 0 part ∧
                   stackKeyIs st.stack 1 "nodes" then
                  if st.entryStart ≠ none ∧ st.posInArr = 0 then
                    match pathIndex after st.stack (.pint st.posInArr) with
                    | some data => .ok { st with nodeId := some data }
                    | none => .error ()
                  else .ok st
                else .ok st
              match stepA with
              | .error _ => .error ()
              | .ok stA =>
                match compare_and_set_value before after stA.stack (.pint stA.posInArr) node with
                | .error _ => .error ()
                | .ok (node', _) =>
                  .ok ({ stA with posInArr := stA.posInArr + 1 }, ast.set i node')
            else .ok (st, ast)

/-- The closing phase of one iteration (source lines 457-492): the
section/entry index bookkeeping, then for `}`/`]` tokens the row-insertion
trigger, the stack pop and the row-deletion trigger.  `st1`/`ast1` are the
locals after the first phase. -/
def stepPhase3 (part : String)
    (adds : List (String × ((Int × Nat) × (Int × Nat) × (Int × Nat)))) (dels : List String)
    (st1 : WalkSt) (ast1 : List ASTNode) (i : Nat) (node : ASTNode) :
    Except Unit (WalkSt × List ASTNode × Nat) :=
          let st2 :=
            if node.kind = "\x7b" ∨ node.kind = "[" then
              let stA :=
                if st1.stack.length = 2 ∧ stackKeyIs st1.stack 0 part then
                  { st1 with secStart := some i }
                else st1
              if stA.stack.length = 3 ∧ stackKeyIs stA.stack 0 part then
                { stA with entryStart := some i }
              else stA
            else st1
          if node.kind = "\x7d" ∨ node.kind = "]" then
            let st3 :=
              if st2.stack.length = 3 ∧ stackKeyIs st2.stack 0 part then
                { st2 with entryEnd := some i }
              else st2
            let addE : Except Unit (List ASTNode × Nat) :=
              if node.kind = "]" ∧ st3.stack.length = 2 ∧ stackKeyIs st3.stack 0 part ∧
                 stackKeyIs st3.stack 1 "nodes" ∧ adds ≠ [] then
                match st3.secStart, st3.entryEnd with
                | some ss, some ee => add_jbeam_nodes ast1 ss i ee adds
                | _, _ => .error ()
              else .ok (ast1, i)
            match addE with
            | .error _ => .error ()
            | .ok (ast2, i2) =>
              let headOpt := st3.stack.getLast?
              let stack' := st3.stack.dropLast
              let inDict' := match headOpt with | some (_, b) => b | none => true
              let posE : Except Unit Int :=
                match headOpt with
                | some (k, false) =>
                  if stack' ≠ [] then
                    match k with
                    | .pint n => .ok (n + 1)
                    | _ => .error ()
                  else .ok 0
                | _ => .ok 0
              match posE with
              | .error _ => .error ()
              | .ok pos' =>
                let st4 := { st3 with stack := stack', inDict := inDict', posInArr := pos' }
                let delE : Except Unit (WalkSt × List ASTNode × Nat) :=
                  if node.kind = "]" ∧ st4.stack.length = 2 ∧ stackKeyIs st4.stack 0 part ∧
                     stackKeyIs st4.stack 1 "nodes" then
                    match delMembership st4.nodeId dels with
                    | .error _ => .error ()
                    | .ok isDel =>
                      if isDel then
                        match st4.entryStart, st4.entryEnd with
                        | some es, some ee =>
                          match delete_jbeam_node ast2 es ee with
                          | .error _ => .error ()
                          | .ok (ast3, i3) =>
                            .ok ({ st4 with entryStart := none, nodeId := none },
                                 ast3, (i3 + 1).toNat)
                        | _, _ => .error ()
                      else
                        .ok ({ st4 with entryStart := none, nodeId := none }, ast2, i2 + 1)
                  else .ok (st4, ast2, i2 + 1)
                match delE with
                | .error _ => .error ()
                | .ok (st5, ast5, iNext) => .ok (st5, ast5, iNext)
          else .ok (st2, ast1, i + 1)

/-- One iteration of the `while i < len(ast_nodes)` body of
`update_ast_nodes` (source lines 392-492) on the token at index `i`:
separator tokens are skipped, other tokens go through both phases.  `adds`
and `dels` carry `nodes_to_add` in insertion order and the keys of
`nodes_to_delete` (the walk only tests membership). -/
def updateStep (before after : PyVal) (part : String)
    (adds : List (String × ((Int × Nat) × (Int × Nat) × (Int × Nat)))) (dels : List String)
    (st : WalkSt) (ast : List ASTNode) (i : Nat) (node : ASTNode) :
    Except Unit (WalkSt × List ASTNode × Nat) :=
  if node.kind = "wsc" then .ok (st, ast, i + 1)
  else
    match stepPhase1 before after part st ast i node with
    | .error _ => .error ()
    | .ok (st1, ast1) => stepPhase3 part adds dels st1 ast1 i node

/-- The `while i < len(ast_nodes)` loop of `update_ast_nodes` (source lines
391-492), iterating `updateStep` and driven by fuel (running out of fuel is
reported as an error; the fuel argument is instrumentation, not part of the
source, whose loop terminates by index progress). -/
def updateLoop (before after : PyVal) (part : String)
    (adds : List (String × ((Int × Nat) × (Int × Nat) × (Int × Nat)))) (dels : List String) :
    Nat → WalkSt → List ASTNode → Nat → Except Unit (List ASTNode)
  | 0, _, _, _ => .error ()
  | fuel + 1, st, ast, i =>
    match ast.get? i with
    | none => .ok ast
    | some node =>
      match updateStep before after part adds dels st ast i node with
      | .error _ => .error ()
      | .ok (st', ast', iNext) => updateLoop before after part adds dels fuel st' ast' iNext

/-- Model of `update_ast_nodes(ast_nodes, current_jbeam_file_data,
current_jbeam_file_data_modified, jbeam_part, nodes_to_add,
nodes_to_delete)`: run the walk from the initial state over the whole token
list.  `fuel` bounds the number of loop iterations (instrumentation; see
`updateLoop`). -/
def update_ast_nodes (fuel : Nat) (ast : List ASTNode) (before after : PyVal) (part : String)
    (adds : List (String × ((Int × Nat) × (Int × Nat) × (Int × Nat)))) (dels : List String) :
    Except Unit (List ASTNode) :=
  updateLoop before after part adds dels fuel initWalkSt ast 0

/-! ### The reconciler's position-based rename fallback
(`_get_nodes_add_delete_rename`, source lines 326-348) -/

/-- A position triple as produced by `to_c_float` on each coordinate. -/
abbrev Pos3 := F32 × F32 × F32

/-- Lookup in the position-to-id map. -/
def posLookup : List (Pos3 × Option String) → Pos3 → Option (Option String)
  | [], _ => none
  | (p, v) :: t, k => if p = k then some v else posLookup t k

/-- Overwrite the value at a position key with `None` (in place). -/
def posSetNone : List (Pos3 × Option String) → Pos3 → List (Pos3 × Option String)
  | [], _ => []
  | (p, v) :: t, k => if p = k then (p, none) :: t else (p, v) :: posSetNone t k

/-- Build `{position: candidate_id}` with duplicate positions demoted to
`None` (source lines 326-340, identical for the delete and add side). -/
def buildPosToId (cands : List (String × Pos3)) : List (Pos3 × Option String) :=
  cands.foldl
    (fun acc c =>
      if (posLookup acc c.2).isSome then posSetNone acc c.2
      else acc ++ [(c.2, some c.1)])
    []

/-- `d.pop(k)`'s removal: `none` models the raised `KeyError`. -/
def listPop (l : List (String × Pos3)) (k : String) : Option (List (String × Pos3)) :=
  match l with
  | [] => none
  | (k', v) :: t =>
    if k' = k then some t else (listPop t k).map ((k', v) :: ·)

/-- The matching loop (source lines 342-348): for each position of the
delete-side map present in the add-side map with a non-`None` add id,
record a rename and pop both candidates.  The delete id is **not** checked
against `None`: when the delete side is ambiguous at such a position the
source executes `true_node_renames[None] = add_id` and then
`nodes_to_delete.pop(None)` raises `KeyError`, modelled as `Except.error`. -/
def renameLoop (amap : List (Pos3 × Option String)) :
    List (Pos3 × Option String) → List (String × Pos3) → List (String × Pos3) →
    List (String × String) →
    Except Unit (List (String × String) × List (String × Pos3) × List (String × Pos3))
  | [], dels, adds, ren => .ok (ren, dels, adds)
  | (pos, delId) :: rest, dels, adds, ren =>
    match posLookup amap pos with
    | none => renameLoop amap rest dels adds ren
    | some addId =>
      match addId with
      | none => renameLoop amap rest dels adds ren
      | some aid =>
        match delId with
        | none => .error ()
        | some did =>
          match listPop dels did, listPop adds aid with
          | some dels', some adds' => renameLoop amap rest dels' adds' (ren ++ [(did, aid)])
          | _, _ => .error ()

/-- Model of the position-based rename fallback of
`_get_nodes_add_delete_rename` (source lines 326-348), taking the remaining
`nodes_to_delete` and `nodes_to_add` candidate dicts (insertion-ordered)
and returning `(true_node_renames entries, nodes_to_delete, nodes_to_add)`
afterwards. -/
def rename_by_position (nodesToDelete nodesToAdd : List (String × Pos3)) :
    Except Unit (List (String × String) × List (String × Pos3) × List (String × Pos3)) :=
  renameLoop (buildPosToId nodesToAdd) (buildPosToId nodesToDelete) nodesToDelete nodesToAdd []

/-! ### Well-formedness: duplicate-free dicts.  CPython dicts cannot hold
two bindings of one key; the embedding's association maps can, so facts
about Python `==` (such as reflexivity) are stated under this invariant. -/

/-- No key occurs twice. -/
def distinctKeys : List PyKey → Bool
  | [] => true
  | k :: t => ¬ t.contains k && distinctKeys t

mutual

/-- Every dict (and metadata map) inside the value has duplicate-free keys. -/
def noDupV : PyVal → Bool
  | .plist l => noDupL l
  | .pdict d => distinctKeys d.keysList && noDupE d
  | .pmeta d => distinctKeys d.keysList && noDupE d
  | _ => true

/-- `noDupV` over a list's elements. -/
def noDupL : PyList → Bool
  | .nil => true
  | .cons h t => noDupV h && noDupL t

/-- `noDupV` over a map's values. -/
def noDupE : PyEntries → Bool
  | .enil => true
  | .econs _ v t => noDupV v && noDupE t

end

/-- A binding occurs in the map. -/
def entryMem (k : PyKey) (v : PyVal) : PyEntries → Prop
  | .enil => False
  | .econs k' v' t => (k = k' ∧ v = v') ∨ entryMem k v t

/-- A binding's key is among the keys. -/
def entryMem_key_mem : {d : PyEntries} → {k : PyKey} → {v : PyVal} →
    entryMem k v d → d.keysList.contains k = true
  | .enil, _, _, h => h.elim
  | .econs k' _ t, k, v, h => by
    rcases h with ⟨hk, _⟩ | h
    · simp [PyEntries.keysList, List.contains_cons, hk]
    · have := entryMem_key_mem (d := t) (k := k) (v := v) h
      simp only [PyEntries.keysList, List.contains_cons, this, Bool.or_true]

/-- In a duplicate-free map, every binding is what lookup finds. -/
def lookup_self : {d : PyEntries} → {k : PyKey} → {v : PyVal} →
    distinctKeys d.keysList = true → entryMem k v d → pyLookup k d = some v
  | .enil, _, _, _, h => h.elim
  | .econs k' v' t, k, v, hd, h => by
    have hd' : (t.keysList.contains k' = false) ∧ distinctKeys t.keysList = true := by
      simpa [PyEntries.keysList, distinctKeys, Bool.and_eq_true] using hd
    rcases h with ⟨hk, hv⟩ | h
    · subst hk; subst hv; simp [pyLookup]
    · have hk : ¬ (k = k') := by
        intro he
        subst he
        rw [entryMem_key_mem (d := t) h] at hd'
        exact absurd hd'.1 (by simp)
      simp only [pyLookup, if_neg hk]
      exact lookup_self hd'.2 h

/-- A successful lookup is a binding. -/
def lookup_entryMem : {d : PyEntries} → {k : PyKey} → {v : PyVal} →
    pyLookup k d = some v → entryMem k v d
  | .enil, _, _, h => by simp [pyLookup] at h
  | .econs k' v' t, k, v, h => by
    by_cases hk : k = k'
    · subst hk
      simp [pyLookup] at h
      exact Or.inl ⟨rfl, h.symm⟩
    · simp only [pyLookup, if_neg hk] at h
      exact Or.inr (lookup_entryMem h)

/-- Values of a `noDupE` map are themselves duplicate-free. -/
def noDupE_val : {d : PyEntries} → {k : PyKey} → {v : PyVal} → noDupE d = true →
    entryMem k v d → noDupV v = true
  | .enil, _, _, _, h => h.elim
  | .econs _ v' t, k, v, hd, h => by
    have hd' : noDupV v' = true ∧ noDupE t = true := by
      simpa [noDupE, Bool.and_eq_true] using hd
    rcases h with ⟨_, hv⟩ | h
    · subst hv; exact hd'.1
    · exact noDupE_val hd'.2 h

mutual

/-- Python `==` is reflexive on values whose dicts are duplicate-free. -/
def pyEq_refl : (v : PyVal) → noDupV v = true → pyEq v v = true
  | .pstr _, _ => by simp [pyEq]
  | .pint _, _ => by simp [pyEq]
  | .pfloat _ _, _ => by simp [pyEq]
  | .pbool _, _ => by simp [pyEq]
  | .pnone, _ => rfl
  | .plist l, h => by
    have := pyEqL_refl l (by simpa [noDupV] using h)
    simpa [pyEq] using this
  | .pdict d, h => by
    have h1 : distinctKeys d.keysList = true ∧ noDupE d = true := by
      simpa [noDupV, Bool.and_eq_true] using h
    have e1 := pyEqD_refl d d (fun _ _ hm => lookup_self h1.1 hm) h1.2
    have e2 := pyKeysSub_self d d (fun _ _ hm => lookup_self h1.1 hm)
    simp [pyEq, Bool.and_eq_true]
    exact ⟨e1, e2⟩
  | .pmeta d, h => by
    have h1 : distinctKeys d.keysList = true ∧ noDupE d = true := by
      simpa [noDupV, Bool.and_eq_true] using h
    have e1 := pyEqD_refl d d (fun _ _ hm => lookup_self h1.1 hm) h1.2
    have e2 := pyKeysSub_self d d (fun _ _ hm => lookup_self h1.1 hm)
    simp [pyEq, Bool.and_eq_true]
    exact ⟨e1, e2⟩

/-- Elementwise reflexivity for lists. -/
def pyEqL_refl : (l : PyList) → noDupL l = true → pyEqL l l = true
  | .nil, _ => rfl
  | .cons x t, h => by
    have h1 : noDupV x = true ∧ noDupL t = true := by
      simpa [noDupL, Bool.and_eq_true] using h
    simp [pyEqL, Bool.and_eq_true]
    exact ⟨pyEq_refl x h1.1, pyEqL_refl t h1.2⟩

/-- Each binding of `d0` is looked up to an equal value in `d`. -/
def pyEqD_refl : (d0 d : PyEntries) → (∀ k v, entryMem k v d0 → pyLookup k d = some v) →
    noDupE d0 = true → pyEqD d0 d = true
  | .enil, _, _, _ => rfl
  | .econs k v t, d, hl, hnd => by
    have hkv : pyLookup k d = some v := hl k v (Or.inl ⟨rfl, rfl⟩)
    have h1 : noDupV v = true ∧ noDupE t = true := by
      simpa [noDupE, Bool.and_eq_true] using hnd
    simp [pyEqD, hkv, Bool.and_eq_true]
    exact ⟨pyEq_refl v h1.1, pyEqD_refl t d (fun k' v' hm => hl k' v' (Or.inr hm)) h1.2⟩

/-- Each key of `d0` is present in `d`. -/
def pyKeysSub_self : (d0 d : PyEntries) → (∀ k v, entryMem k v d0 → pyLookup k d = some v) →
    pyKeysSub d0 d = true
  | .enil, _, _ => rfl
  | .econs k v t, d, hl => by
    have hkv : pyLookup k d = some v := hl k v (Or.inl ⟨rfl, rfl⟩)
    simp [pyKeysSub, hkv, Bool.and_eq_true]
    exact pyKeysSub_self t d (fun k' v' hm => hl k' v' (Or.inr hm))

end

/-- Elements found by `get?` keep the invariant. -/
def noDupL_get : {l : PyList} → {n : Nat} → {v : PyVal} → noDupL l = true →
    l.get? n = some v → noDupV v = true
  | .nil, _, _, _, hg => by simp [PyList.get?] at hg
  | .cons x t, 0, v, hl, hg => by
    have h1 : noDupV x = true ∧ noDupL t = true := by
      simpa [noDupL, Bool.and_eq_true] using hl
    simp [PyList.get?] at hg
    exact hg ▸ h1.1
  | .cons x t, n + 1, v, hl, hg => by
    have h1 : noDupV x = true ∧ noDupL t = true := by
      simpa [noDupL, Bool.and_eq_true] using hl
    exact noDupL_get h1.2 hg

theorem pyListGet_get {l : PyList} {n : Int} {v : PyVal} (h : pyListGet l n = some v) :
    ∃ m, l.get? m = some v := by
  simp only [pyListGet] at h
  split at h <;> split at h <;>
    first
      | exact ⟨_, h⟩
      | exact absurd h (by simp)

theorem noDup_pyIndex {c k v : PyVal} (hc : noDupV c = true) (h : pyIndex c k = some v) :
    noDupV v = true := by
  cases c with
  | pdict d =>
    have h2 : noDupE d = true := by
      have hp : distinctKeys d.keysList = true ∧ noDupE d = true := by
        simpa [noDupV, Bool.and_eq_true] using hc
      exact hp.2
    simp only [pyIndex, Option.bind_eq_some] at h
    obtain ⟨kk, _, hl⟩ := h
    exact noDupE_val h2 (lookup_entryMem hl)
  | pmeta d =>
    have h2 : noDupE d = true := by
      have hp : distinctKeys d.keysList = true ∧ noDupE d = true := by
        simpa [noDupV, Bool.and_eq_true] using hc
      exact hp.2
    simp only [pyIndex, Option.bind_eq_some] at h
    obtain ⟨kk, _, hl⟩ := h
    exact noDupE_val h2 (lookup_entryMem hl)
  | plist l =>
    have h2 : noDupL l = true := by simpa [noDupV] using hc
    cases k with
    | pint n =>
      simp only [pyIndex] at h
      obtain ⟨m, hm⟩ := pyListGet_get h
      exact noDupL_get h2 hm
    | pbool b =>
      simp only [pyIndex] at h
      obtain ⟨m, hm⟩ := pyListGet_get h
      exact noDupL_get h2 hm
    | pstr s => exact absurd h (by simp [pyIndex])
    | pfloat a b => exact absurd h (by simp [pyIndex])
    | pnone => exact absurd h (by simp [pyIndex])
    | plist l2 => exact absurd h (by simp [pyIndex])
    | pdict d2 => exact absurd h (by simp [pyIndex])
    | pmeta m2 => exact absurd h (by simp [pyIndex])
  | pstr s =>
    cases k with
    | pint n =>
      simp only [pyIndex] at h
      split at h <;> split at h <;>
        first
          | (have hv := Option.some.inj h; exact hv ▸ rfl)
          | exact absurd h (by simp)
    | pstr s2 => exact absurd h (by simp [pyIndex])
    | pfloat a b => exact absurd h (by simp [pyIndex])
    | pbool b => exact absurd h (by simp [pyIndex])
    | pnone => exact absurd h (by simp [pyIndex])
    | plist l2 => exact absurd h (by simp [pyIndex])
    | pdict d2 => exact absurd h (by simp [pyIndex])
    | pmeta m2 => exact absurd h (by simp [pyIndex])
  | pint n => exact absurd h (by simp [pyIndex])
  | pfloat a b => exact absurd h (by simp [pyIndex])
  | pbool b => exact absurd h (by simp [pyIndex])
  | pnone => exact absurd h (by simp [pyIndex])

theorem noDup_pathIndex : ∀ (stack : List (PyVal × Bool)) {t idx v : PyVal},
    noDupV t = true → pathIndex t stack idx = some v → noDupV v = true := by
  intro stack
  induction stack with
  | nil =>
    intro t idx v ht h
    exact noDup_pyIndex ht h
  | cons e rest ih =>
    intro t idx v ht h
    simp only [pathIndex, Option.bind_eq_some] at h
    obtain ⟨d, hd, hrest⟩ := h
    exact ih (noDup_pyIndex ht hd) hrest

/-! ### Properties of the scalar diffing step -/

theorem set_number_node_kind (node : ASTNode) (v : PyVal) :
    (set_number_node node v).kind = node.kind := by
  unfold set_number_node
  split
  · rfl
  · rfl

theorem compare_kind {b a : PyVal} {st : List (PyVal × Bool)} {idx : PyVal} {node : ASTNode}
    {r : ASTNode × Bool} (h : compare_and_set_value b a st idx node = .ok r) :
    r.1.kind = node.kind := by
  unfold compare_and_set_value at h
  split at h
  · split at h
    · split at h
      · cases h
        exact set_number_node_kind node _
      · cases h
        rfl
    · split at h
      · cases h
        rfl
      · cases h
        rfl
  · exact absurd h (by simp)

theorem compare_false_eq {b a : PyVal} {st : List (PyVal × Bool)} {idx : PyVal} {node nd : ASTNode}
    (h : compare_and_set_value b a st idx node = .ok (nd, false)) : nd = node := by
  unfold compare_and_set_value at h
  split at h
  · split at h
    · split at h
      · cases h
      · cases h
        rfl
    · split at h
      · cases h
      · cases h
        rfl
  · exact absurd h (by simp)

/-- With equal trees the diffing step never rewrites the token (the claim's
idempotence core): the number branch compares a value with itself at
`c_float` precision, the general branch via Python `==`, which is reflexive
on duplicate-free values. -/
theorem compare_self {t : PyVal} {st : List (PyVal × Bool)} {idx : PyVal} {node : ASTNode}
    {r : ASTNode × Bool} (hnd : noDupV t = true)
    (h : compare_and_set_value t t st idx node = .ok r) : r.1 = node := by
  unfold compare_and_set_value at h
  rcases ho : pathIndex t st idx with _ | v
  · rw [ho] at h
    exact absurd h (by simp)
  · rw [ho] at h
    dsimp only at h
    have hv : noDupV v = true := noDup_pathIndex st hnd ho
    by_cases hk : node.kind = "number"
    · rw [if_pos hk] at h
      by_cases hcond : (¬ isPyInt v ∧ ¬ isPyFloat v) ∨
          ((isPyInt v ∨ isPyFloat v) ∧ (toCFloatV v ≠ toCFloatV v ∧ ¬ pyEq v v))
      · rw [if_pos hcond] at h
        have h2 : (set_number_node node v, true) = r := Except.ok.inj h
        rcases hcond with hnn | ⟨_, hne, _⟩
        · rw [← h2]
          show set_number_node node v = node
          unfold set_number_node
          rw [if_neg]
          intro hor
          rcases hor with ⟨_, hi⟩ | hf
          · exact hnn.1 hi
          · exact hnn.2 hf
        · exact absurd rfl hne
      · rw [if_neg hcond] at h
        have h2 : ((node, false) : ASTNode × Bool) = r := Except.ok.inj h
        rw [← h2]
    · rw [if_neg hk] at h
      have hpe : pyEq v v = true := pyEq_refl v hv
      rw [if_neg (by simp [hpe])] at h
      have h2 : ((node, false) : ASTNode × Bool) = r := Except.ok.inj h
      rw [← h2]

/-- `delMembership` against an empty delete set never answers `true`. -/
theorem delMembership_nil {nid : Option PyVal} {b : Bool}
    (h : delMembership nid [] = .ok b) : b = false := by
  unfold delMembership at h
  rcases nid with _ | v
  · cases h
    rfl
  · rcases v <;> first
      | (cases h; rfl)
      | exact absurd h (by simp)

/-! ### The frame relation: what one patch pass may change -/

/-- `FrameOut before after ast out i` relates the walk's input and output
token lists: lengths agree, tokens below index `i` are untouched, and every
changed token anywhere is a non-separator token rewritten by a
`compare_and_set_value` call that flagged a change. -/
def FrameOut (before after : PyVal) (ast out : List ASTNode) (i : Nat) : Prop :=
  out.length = ast.length ∧
  (∀ j, j < i → out.get? j = ast.get? j) ∧
  (∀ j, out.get? j = ast.get? j ∨
    ∃ stk idx nd nd', ast.get? j = some nd ∧ out.get? j = some nd' ∧ nd.kind ≠ "wsc" ∧
      compare_and_set_value before after stk idx nd = .ok (nd', true))

theorem frame_refl (before after : PyVal) (ast : List ASTNode) (i : Nat) :
    FrameOut before after ast ast i :=
  ⟨rfl, fun _ _ => rfl, fun _ => Or.inl rfl⟩

theorem frame_skip {before after : PyVal} {ast out : List ASTNode} {i : Nat}
    (h : FrameOut before after ast out (i + 1)) : FrameOut before after ast out i :=
  ⟨h.1, fun j hj => h.2.1 j (Nat.lt_succ_of_lt hj), h.2.2⟩

theorem frame_of_set {before after : PyVal} {ast out : List ASTNode} {i : Nat}
    {node nd' : ASTNode} {c : Bool} {stk : List (PyVal × Bool)} {idx : PyVal}
    (hget : ast.get? i = some node) (hkind : node.kind ≠ "wsc")
    (hcmp : compare_and_set_value before after stk idx node = .ok (nd', c))
    (h : FrameOut before after (ast.set i nd') out (i + 1)) :
    FrameOut before after ast out i := by
  have hlen : out.length = ast.length := by
    rw [h.1, List.length_set]
  have hset_at : (ast.set i nd').get? i = some nd' := by
    rw [List.get?_set_eq, hget]
    rfl
  refine ⟨hlen, ?_, ?_⟩
  · intro j hj
    have h1 := h.2.1 j (Nat.lt_succ_of_lt hj)
    rwa [List.get?_set_ne nd' ast (Nat.ne_of_lt hj).symm] at h1
  · intro j
    by_cases hij : i = j
    · subst hij
      have h1 := h.2.1 i (Nat.lt_succ_self i)
      rw [hset_at] at h1
      cases c with
      | false =>
        have := compare_false_eq hcmp
        subst this
        exact Or.inl (h1.trans hget.symm)
      | true =>
        exact Or.inr ⟨stk, idx, node, nd', hget, h1, hkind, hcmp⟩
    · have h2 := h.2.2 j
      rw [List.get?_set_ne nd' ast hij] at h2
      exact h2

/-- Corollary: the delete-membership probe on an empty id list never yields `true`. -/
theorem delMembership_nil_false (nid : Option PyVal) :
    ¬ (delMembership nid [] = .ok true) := by
  intro h
  exact absurd (delMembership_nil h) (by simp)

set_option maxHeartbeats 2000000 in
/-- Phase 1 of the walk step (the value-diff on primitive tokens) either leaves
the token list untouched or rewrites exactly the current token through
`compare_and_set_value`. -/
theorem stepPhase1_frame {before after : PyVal} {part : String} {st : WalkSt}
    {ast : List ASTNode} {i : Nat} {node : ASTNode} {st1 : WalkSt} {ast1 : List ASTNode}
    (h : stepPhase1 before after part st ast i node = .ok (st1, ast1)) :
    ast1 = ast ∨ ∃ stk idx nd' c,
      compare_and_set_value before after stk idx node = .ok (nd', c) ∧ ast1 = ast.set i nd' := by
  unfold stepPhase1 at h
  repeat' (first | split at h | dsimp only at h)
  all_goals
    first
      | exact Except.noConfusion h
      | (have h2 := Except.ok.inj h
         simp only [Prod.mk.injEq] at h2
         obtain ⟨h2a, h2b⟩ := h2
         subst h2b
         first
           | exact Or.inl rfl
           | (right; exact ⟨_, _, _, _, by assumption, rfl⟩))

set_option maxHeartbeats 2000000 in
/-- Phase 3 of the walk step (stack maintenance plus node add/delete hooks):
with no nodes to add or delete it never edits the token list and always
advances the index by one. -/
theorem stepPhase3_frame {part : String} {st1 : WalkSt} {ast1 : List ASTNode} {i : Nat}
    {node : ASTNode} {st' : WalkSt} {ast' : List ASTNode} {i' : Nat}
    (h : stepPhase3 part [] [] st1 ast1 i node = .ok (st', ast', i')) :
    ast' = ast1 ∧ i' = i + 1 := by
  unfold stepPhase3 at h
  repeat' (first | split at h | dsimp only at h)
  all_goals
    first
      | exact Except.noConfusion h
      | (have h2 := Except.ok.inj h
         simp only [Prod.mk.injEq] at h2
         exact ⟨h2.2.1.symm, h2.2.2.symm⟩)
      | (rename_i heqDel
         casesm* _ ∨ _ <;>
           (repeat' (first | split at heqDel | dsimp only at heqDel)) <;>
             (simp_all [delMembership_nil_false, Prod.mk.injEq]; done))

/-- One step of the walk (`updateStep`) with empty add/delete sets either
returns the token list unchanged or rewrites exactly the current (non-wsc)
token through `compare_and_set_value`, always advancing the index. -/
theorem updateStep_frame {before after : PyVal} {part : String} {st : WalkSt}
    {ast : List ASTNode} {i : Nat} {node : ASTNode} {st' : WalkSt} {ast' : List ASTNode} {i' : Nat}
    (h : updateStep before after part [] [] st ast i node = .ok (st', ast', i')) :
    i' = i + 1 ∧ (ast' = ast ∨ (node.kind ≠ "wsc" ∧ ∃ stk idx nd' c,
      compare_and_set_value before after stk idx node = .ok (nd', c) ∧ ast' = ast.set i nd')) := by
  unfold updateStep at h
  by_cases hw : node.kind = "wsc"
  · rw [if_pos hw] at h
    have h2 := Except.ok.inj h
    simp only [Prod.mk.injEq] at h2
    exact ⟨h2.2.2.symm, Or.inl h2.2.1.symm⟩
  · rw [if_neg hw] at h
    rcases h1 : stepPhase1 before after part st ast i node with _ | ⟨st1, ast1⟩
    · rw [h1] at h
      exact absurd h (by simp)
    · rw [h1] at h
      dsimp only at h
      have h3 := stepPhase3_frame h
      have hp1 := stepPhase1_frame h1
      refine ⟨h3.2, ?_⟩
      rcases hp1 with heq | ⟨stk, idx, nd', c, hcmp, hset⟩
      · exact Or.inl (h3.1.trans heq)
      · exact Or.inr ⟨hw, stk, idx, nd', c, hcmp, h3.1.trans hset⟩

/-- The walk loop with empty add/delete sets satisfies the frame relation
from its current index on. -/
theorem updateLoop_frame {before after : PyVal} {part : String} :
    ∀ (fuel : Nat) (st : WalkSt) (ast : List ASTNode) (i : Nat) (out : List ASTNode),
    updateLoop before after part [] [] fuel st ast i = .ok out →
    FrameOut before after ast out i := by
  intro fuel
  induction fuel with
  | zero =>
    intro st ast i out h
    exact absurd h (by simp [updateLoop])
  | succ fuel ih =>
    intro st ast i out h
    unfold updateLoop at h
    rcases hg : ast.get? i with _ | node
    · rw [hg] at h
      dsimp only at h
      have h2 := Except.ok.inj h
      subst h2
      exact frame_refl _ _ _ _
    · rw [hg] at h
      dsimp only at h
      rcases hs : updateStep before after part [] [] st ast i node with _ | ⟨⟨st', ast', iNext⟩⟩
      · rw [hs] at h
        exact absurd h (by simp)
      · rw [hs] at h
        dsimp only at h
        have hstep := updateStep_frame hs
        have hrec := ih st' ast' iNext out h
        rcases hstep with ⟨hi, heq | ⟨hw, stk, idx, nd', c, hcmp, hset⟩⟩
        · subst heq
          rw [hi] at hrec
          exact frame_skip hrec
        · subst hset
          rw [hi] at hrec
          exact frame_of_set hg hw hcmp hrec

/-- A whole patch pass with empty add/delete sets satisfies the frame
relation over the full token list. -/
theorem update_ast_nodes_frame {fuel : Nat} {ast out : List ASTNode} {before after : PyVal}
    {part : String} (h : update_ast_nodes fuel ast before after part [] [] = .ok out) :
    FrameOut before after ast out 0 :=
  updateLoop_frame fuel initWalkSt ast 0 out h

/-! ### Spec-side characterizations (used to compare the code against the
specification's wording) -/

/-- The specification's per-row failure condition: a row fails when it is
neither a map nor a sequence, or it is a sequence longer than the header
length plus one (`hsz1` = header length + 1). -/
def specRowBad (hsz1 : Nat) : PyVal → Bool
  | .pdict _ => false
  | .plist cells => decide (hsz1 < cells.length)
  | _ => true

/-- Some row of the list fails the specification's row condition. -/
def specAnyRow (hsz1 : Nat) : PyList → Bool
  | .nil => false
  | .cons r rs => specRowBad hsz1 r || specAnyRow hsz1 rs

/-- The specification's table-failure condition: the first element is not a
sequence, or some later row fails the row condition. -/
def specTableFails (tbl : PyList) : Bool :=
  match tbl with
  | .nil => false
  | .cons headerV rest =>
    match headerV with
    | .plist h0 => specAnyRow (h0.length + 1) rest
    | _ => true

/-- The indent text the specification claims row insertion uses: scanning
backward through separator tokens, the text following the most recent
newline (spec-side definition mirroring the scan's control flow). -/
def specIndentText (ast : List ASTNode) (secStart : Nat) : Nat → Option String
  | 0 => none
  | j + 1 =>
    if j + 1 ≤ secStart then none
    else
      match ast.get? (j + 1) with
      | some node =>
        if node.kind = "wsc" then
          match node.value with
          | .pstr s =>
            match afterLastNl s with
            | some t => some t
            | none => specIndentText ast secStart j
          | _ => specIndentText ast secStart j
        else specIndentText ast secStart j
      | none => specIndentText ast secStart j

/-- A value `==`-equal to a string is that string. -/
theorem pyEq_pstr {v : PyVal} {s : String} (h : pyEq v (.pstr s) = true) : v = .pstr s := by
  cases v <;> simp [pyEq] at h <;> rw [h]

/-- `list.append` puts the new value last. -/
def PyList.getLast?_append : ∀ (l : PyList) (v : PyVal),
    PyList.getLast? (PyList.append l v) = some v
  | .nil, _ => rfl
  | .cons _ t, v => by
    cases t with
    | nil => rfl
    | cons h2 t2 =>
      have ih := PyList.getLast?_append (.cons h2 t2) v
      simp only [PyList.append, PyList.getLast?] at ih ⊢
      exact ih

/-- The row walk returns `-1` exactly when some row fails the
specification's row condition. -/
def procRows_retIff : (rows : PyList) → {header : PyList} → {hsz : Nat} →
    {opts out : PyEntries} → {cnt key : Nat} → {rows' : PyList} → {out' : PyEntries} →
    {ret : Int} →
    procRows header hsz opts out cnt key rows = some (rows', out', ret) →
    ((ret = -1) ↔ specAnyRow (hsz + 1) rows = true)
  | .nil, _, _, _, _, _, _, _, _, _, h => by
    unfold procRows at h
    have h2 := Option.some.inj h
    simp only [Prod.mk.injEq] at h2
    constructor
    · intro hr
      rw [← h2.2.2] at hr
      exact absurd hr (by omega)
    · intro hs
      exact absurd hs (by simp [specAnyRow])
  | .cons r rs, header, hsz, opts, out, cnt, key, rows', out', ret, h => by
    unfold procRows at h
    cases r
    case plist cells =>
      dsimp only at h
      by_cases hlen : hsz + 1 < cells.length
      · rw [if_pos hlen] at h
        have h2 := Option.some.inj h
        simp only [Prod.mk.injEq] at h2
        rw [← h2.2.2]
        simp [specAnyRow, specRowBad, hlen]
      · rw [if_neg hlen] at h
        repeat' (first | split at h | dsimp only at h)
        all_goals
          first
            | exact Option.noConfusion h
            | (have h2 := Option.some.inj h
               simp only [Prod.mk.injEq] at h2
               rw [← h2.2.2]
               have ih := procRows_retIff rs (by assumption)
               simpa [specAnyRow, specRowBad, hlen] using ih)
    case pdict d =>
      dsimp only at h
      repeat' (first | split at h | dsimp only at h)
      all_goals
        first
          | exact Option.noConfusion h
          | (have h2 := Option.some.inj h
             simp only [Prod.mk.injEq] at h2
             rw [← h2.2.2]
             have ih := procRows_retIff rs (by assumption)
             simpa [specAnyRow, specRowBad] using ih)
    all_goals
      dsimp only at h
      have h2 := Option.some.inj h
      simp only [Prod.mk.injEq] at h2
      rw [← h2.2.2]
      simp [specAnyRow, specRowBad]

/-- The row walk never adds or removes rows (it only mutates rows in place
and stops early). -/
def procRows_length : (rows : PyList) → {header : PyList} → {hsz : Nat} →
    {opts out : PyEntries} → {cnt key : Nat} → {rows' : PyList} → {out' : PyEntries} →
    {ret : Int} →
    procRows header hsz opts out cnt key rows = some (rows', out', ret) →
    rows'.length = rows.length
  | .nil, _, _, _, _, _, _, _, _, _, h => by
    unfold procRows at h
    have h2 := Option.some.inj h
    simp only [Prod.mk.injEq] at h2
    rw [← h2.1]
  | .cons r rs, header, hsz, opts, out, cnt, key, rows', out', ret, h => by
    unfold procRows at h
    cases r
    all_goals
      (dsimp only at h
       repeat' (first | split at h | dsimp only at h))
    all_goals
      first
        | exact Option.noConfusion h
        | (have h2 := Option.some.inj h
           simp only [Prod.mk.injEq] at h2
           rw [← h2.1]
           have ih := procRows_length rs (by assumption)
           simp [PyList.length, ih])
        | (have h2 := Option.some.inj h
           simp only [Prod.mk.injEq] at h2
           rw [← h2.1])

/-- A successful, non-sentinel, non-memoized call stores its result in the
memo cache under the fingerprint of its arguments. -/
theorem memo_after_success {memo : Memo} {tbl : PyList} {opts : PyVal} {r : ProcOut}
    (hmiss : memoLookup memo (tbl, opts) = none)
    (h : process_table_with_schema_destructive memo tbl opts = .ok r)
    (hret : r.ret ≠ -1) :
    memoLookup r.memo (tbl, opts) = some (r.out, r.ret) := by
  unfold process_table_with_schema_destructive at h
  rw [hmiss] at h
  repeat' (first | dsimp only at h | split at h)
  all_goals
    first
      | exact Except.noConfusion h
      | (have h2 := Except.ok.inj h
         rw [← h2] at hret
         exact absurd rfl hret)
      | (have h2 := Except.ok.inj h
         rw [← h2]
         simp [memoLookup])

theorem findIndentLvl_spec {ast : List ASTNode} {secStart : Nat} :
    ∀ {j : Nat} {t : String}, specIndentText ast secStart j = some t →
    findIndentLvl ast secStart j = t.length := by
  intro j
  induction j with
  | zero =>
    intro t h
    exact absurd h (by simp [specIndentText])
  | succ j ih =>
    intro t h
    unfold specIndentText at h
    unfold findIndentLvl
    by_cases hle : j + 1 ≤ secStart
    · rw [if_pos hle] at h
      exact absurd h (by simp)
    · rw [if_neg hle] at h
      rw [if_neg hle]
      rcases hg : ast.get? (j + 1) with _ | node <;>
        (try rw [hg] at h) <;> (try rw [hg]) <;> (try dsimp only at h ⊢)
      · exact ih h
      · by_cases hk : node.kind = "wsc"
        · rw [if_pos hk] at h ⊢
          cases hnv : node.value <;>
            (try rw [hnv] at h) <;> (try rw [hnv]) <;> (try dsimp only at h ⊢)
          · rename_i s
            rcases hal : afterLastNl s with _ | t2 <;>
              (try rw [hal] at h) <;> (try rw [hal]) <;> (try dsimp only at h ⊢)
            · exact ih h
            · rw [Option.some.inj h]
          all_goals exact ih h
        · rw [if_neg hk] at h ⊢
          exact ih h

/-- C5: `process_table_with_schema_destructive` returns the failure sentinel
`-1` exactly when the first element of the raw table is not a sequence, or
some row is neither a map nor a sequence, or some sequence row is longer
than the header length plus one (stated for a fresh fingerprint and a call
that completes without raising). -/
theorem C5_failure_sentinel {memo : Memo} {tbl : PyList} {opts : PyVal} {r : ProcOut}
    (hmiss : memoLookup memo (tbl, opts) = none)
    (h : process_table_with_schema_destructive memo tbl opts = .ok r) :
    (r.ret = -1 ↔ specTableFails tbl = true) := by
  unfold process_table_with_schema_destructive at h
  rw [hmiss] at h
  cases tbl with
  | nil =>
    dsimp only at h
    exact Except.noConfusion h
  | cons headerV rest =>
    dsimp only at h
    cases headerV
    case plist h0 =>
      dsimp only at h
      repeat' (first | dsimp only at h | split at h)
      all_goals
        first
          | exact Except.noConfusion h
          | (have h2 := Except.ok.inj h
             rw [← h2]
             have hiff := procRows_retIff rest (by assumption)
             simp only [specTableFails]
             first
               | exact hiff
               | exact iff_of_true trivial (hiff.mp (by assumption)))
    all_goals
      dsimp only at h
      have h2 := Except.ok.inj h
      rw [← h2]
      simp [specTableFails]

/-- C7: a later call whose arguments have the same fingerprint as an earlier
successful (non-sentinel) call returns the cached entries and row count
straight from the memo, leaving the table untouched and not reprocessing any
row. -/
theorem C7_memoized_replay {memo : Memo} {tbl : PyList} {opts : PyVal} {r : ProcOut}
    (hmiss : memoLookup memo (tbl, opts) = none)
    (h : process_table_with_schema_destructive memo tbl opts = .ok r)
    (hret : r.ret ≠ -1) :
    process_table_with_schema_destructive r.memo tbl opts = .ok ⟨r.memo, tbl, none, r.out, r.ret⟩ := by
  have hm := memo_after_success hmiss h hret
  unfold process_table_with_schema_destructive
  rw [hm]

/-- C10: a non-memoized call whose header is a sequence mutates the input
before row validation completes: in every completed call — also those
returning the sentinel `-1` — the header row has been removed from the table
(the result holds one row per input data row) and the popped header ends in
`'options'`. -/
theorem C10_nonatomic_mutation {memo : Memo} {h0 rest : PyList} {opts : PyVal} {r : ProcOut}
    (hmiss : memoLookup memo (.cons (.plist h0) rest, opts) = none)
    (h : process_table_with_schema_destructive memo (.cons (.plist h0) rest) opts = .ok r) :
    (∃ hd, r.header = some hd ∧ hd.getLast? = some (.pstr "options")) ∧
    r.table.length = rest.length := by
  unfold process_table_with_schema_destructive at h
  rw [hmiss] at h
  dsimp only at h
  rcases hl : h0.getLast? with _ | lastV
  · rw [hl] at h
    exact Except.noConfusion h
  · rw [hl] at h
    dsimp only at h
    by_cases hpy : pyEq lastV (.pstr "options") = true
    · rw [if_pos hpy] at h
      repeat' (first | dsimp only at h | split at h)
      all_goals
        first
          | exact Except.noConfusion h
          | (have h2 := Except.ok.inj h
             rw [← h2]
             exact ⟨⟨_, rfl, hl.trans (by rw [pyEq_pstr hpy])⟩,
               procRows_length rest (by assumption)⟩)
    · rw [if_neg hpy] at h
      repeat' (first | dsimp only at h | split at h)
      all_goals
        first
          | exact Except.noConfusion h
          | (have h2 := Except.ok.inj h
             rw [← h2]
             exact ⟨⟨_, rfl, PyList.getLast?_append h0 _⟩,
               procRows_length rest (by assumption)⟩)

/-! ### Concrete fixtures -/

/-- List-of-values constructor shorthand. -/
def plL (l : List PyVal) : PyVal := .plist (PyList.ofList l)

/-- A separator token. -/
def wn (s : String) : ASTNode := ⟨"wsc", .pstr s, 0⟩

/-- A string token. -/
def sn (s : String) : ASTNode := ⟨"\"", .pstr s, 0⟩

/-- An integer number token. -/
def nn (v : Int) : ASTNode := ⟨"number", .pint v, 0⟩

/-- A structural token. -/
def tk (s : String) : ASTNode := ⟨s, .pnone, 0⟩

/-- A token sequence for a part `p` with a three-row `nodes` table. -/
def c1ast : List ASTNode :=
  [tk "\x7b", wn "\n", sn "p", tk ":", wn " ", tk "\x7b", wn "\n    ", sn "nodes", tk ":", wn " ",
   tk "[", wn "\n        ",
   tk "[", sn "id", wn ",", sn "posX", wn ",", sn "posY", wn ",", sn "posZ", tk "]",
   wn ",\n    ",
   tk "[", sn "a", wn ", ", nn 1, wn ", ", nn 2, wn ", ", nn 3, tk "]",
   wn ", \n  ",
   tk "[", sn "b", wn ", ", nn 4, wn ", ", nn 5, wn ", ", nn 6, tk "]",
   wn "\n    ", tk "]", wn "\n", tk "\x7d", wn "\n", tk "\x7d"]

/-- The tree the token sequence `c1ast` renders to. -/
def c1tree : PyVal :=
  .pdict (.econs (.ks "p")
    (.pdict (.econs (.ks "nodes")
      (plL [plL [.pstr "id", .pstr "posX", .pstr "posY", .pstr "posZ"],
            plL [.pstr "a", .pint 1, .pint 2, .pint 3],
            plL [.pstr "b", .pint 4, .pint 5, .pint 6]]) .enil)) .enil)

/-- The token sequence after a patch pass deleting node `a` from `c1ast`. -/
def c1outDel : List ASTNode :=
  ((update_ast_nodes 60 c1ast c1tree c1tree "p" [] ["a"]).toOption).getD []

/-- A token sequence whose `nodes` table is indented with tabs. -/
def c9ast : List ASTNode :=
  [tk "\x7b", sn "p", tk ":", tk "\x7b", sn "nodes", tk ":", tk "[", wn "\n\t",
   tk "[", sn "id", wn ",", sn "posX", wn ",", sn "posY", wn ",", sn "posZ", tk "]",
   wn "\n\t",
   tk "[", sn "a", wn ",", nn 1, wn ",", nn 2, wn ",", nn 3, tk "]",
   wn "\n", tk "]", tk "\x7d", tk "\x7d"]

/-- A table with a bare-map row between two sequence rows. -/
def c6table : PyList := PyList.ofList
  [plL [.pstr "id", .pstr "x"], plL [.pstr "n1", .pint 1],
   .pdict (.econs (.ks "group") (.pstr "X") .enil), plL [.pstr "n2", .pint 2]]

/-- The outcome of processing `c6table` with no input options. -/
def c6out : ProcOut :=
  (process_table_with_schema_destructive [] c6table .pnone).toOption.getD ⟨[], .nil, none, .enil, 0⟩

/-- A header row `["id"]`. -/
def c5hdr : PyList := PyList.ofList [.pstr "id"]

/-- A single data row that is longer than the header length plus one. -/
def c5rest : PyList := .cons (plL [.pstr "a", .pint 1, .pint 2]) .nil

/-- A table whose only data row is too long. -/
def c5tbl : PyList := .cons (.plist c5hdr) c5rest

/-- The outcome of processing the too-long-row table. -/
def c5out : ProcOut :=
  (process_table_with_schema_destructive [] c5tbl .pnone).toOption.getD ⟨[], .nil, none, .enil, 0⟩

/-- A vehicle with one sparse-map section holding a non-integer key after an
integer first key. -/
def c8veh : PyEntries :=
  .econs (.ks "a")
    (.pdict (.econs (.ki 0) (.pstr "x") (.econs (.ks "s") (.pstr "y") .enil))) .enil

/-- The outcome of post-processing `c8veh`. -/
def c8res : Bool × PyEntries := (post_process c8veh).toOption.getD (false, .enil)

/-- A number token carrying the value 1.00005 at 4-digit precision. -/
def numNode : ASTNode := ⟨"number", .pfloat 100005 100000, 4⟩

/-- The position triple (0.0, 0.0, 1.0) at `c_float` precision. -/
def p001 : Pos3 := (to_c_float 0 1, to_c_float 0 1, to_c_float 1 1)

/-! ### The claims -/

/-- A token sequence whose array holds a stray `:` token in a value
position. -/
def c1colonAst : List ASTNode :=
  [tk "\x7b", sn "a", tk ":", wn " ", tk "[", tk ":", tk "]", tk "\x7d"]

/-- The tree `{a: [0]}`. -/
def c1colonBefore : PyVal :=
  .pdict (.econs (.ks "a") (plL [.pint 0]) .enil)

/-- The tree `{a: [6]}`. -/
def c1colonAfter : PyVal :=
  .pdict (.econs (.ks "a") (plL [.pint 6]) .enil)

/-- A token sequence with two parts `p` and `q`, `q` holding a scalar. -/
def c1partAst : List ASTNode :=
  [tk "\x7b", sn "p", tk ":", tk "\x7b", tk "\x7d", wn ",", sn "q", tk ":", tk "\x7b",
   sn "x", tk ":", nn 1, tk "\x7d", tk "\x7d"]

/-- The tree `{p: {}, q: {x: 1}}`. -/
def c1partBefore : PyVal :=
  .pdict (.econs (.ks "p") (.pdict .enil)
    (.econs (.ks "q") (.pdict (.econs (.ks "x") (.pint 1) .enil)) .enil))

/-- The tree `{p: {}, q: {x: 2}}`. -/
def c1partAfter : PyVal :=
  .pdict (.econs (.ks "p") (.pdict .enil)
    (.econs (.ks "q") (.pdict (.econs (.ks "x") (.pint 2) .enil)) .enil))

/-- C1 (counterexample to the claim as stated), refuting three of its
clauses.  First, separator tokens are not left unchanged: a patch pass that
deletes row `a` leaves a separator valued `",\n  "` (the merge of text from
the separators on both sides of the deleted row) that no input separator
carries, and the token count shrinks by more than the deleted row's own
tokens.  Second, structural colon tokens are not left unchanged even with
empty adds/deletes: a `:` token standing in an array's value position has
its value rewritten by the scalar diff (from `pnone` to `pint 6` here).
Third, sections outside the target part are not left unchanged: with target
part `p`, a differing scalar inside part `q` is rewritten (from `pint 1` to
`pint 2` here), since the scalar diff never consults the part name. -/
theorem C1_frame_counterexample :
    (update_ast_nodes 60 c1ast c1tree c1tree "p" [] ["a"]).toOption = some c1outDel ∧
    c1outDel.length ≠ c1ast.length ∧
    c1outDel.get? 21 = some ⟨"wsc", .pstr ",\n  ", 0⟩ ∧
    (∀ nd ∈ c1ast, nd.kind = "wsc" → nd.value ≠ .pstr ",\n  ") ∧
    (update_ast_nodes 20 c1colonAst c1colonBefore c1colonAfter "p" [] []).toOption.map
      (fun l => l.get? 5) = some (some ⟨":", .pint 6, 0⟩) ∧
    c1colonAst.get? 5 = some ⟨":", .pnone, 0⟩ ∧
    (update_ast_nodes 30 c1partAst c1partBefore c1partAfter "p" [] []).toOption.map
      (fun l => l.get? 11) = some (some ⟨"number", .pint 2, 0⟩) ∧
    c1partAst.get? 11 = some ⟨"number", .pint 1, 0⟩ :=
  ⟨rfl, by decide, rfl, by decide, rfl, rfl, rfl, rfl⟩

/-- C1 (amended: with empty adds/deletes): the patch pass keeps the token
count and every token it changes is a non-separator token rewritten by a
`compare_and_set_value` call that flagged a difference; separator and
unchanged-value tokens are left as they are. -/
theorem C1_patch_frame {fuel : Nat} {ast out : List ASTNode} {before after : PyVal} {part : String}
    (h : update_ast_nodes fuel ast before after part [] [] = .ok out) :
    out.length = ast.length ∧
    ∀ j, out.get? j = ast.get? j ∨
      ∃ stk idx nd nd', ast.get? j = some nd ∧ out.get? j = some nd' ∧ nd.kind ≠ "wsc" ∧
        compare_and_set_value before after stk idx nd = .ok (nd', true) := by
  have hf := update_ast_nodes_frame h
  exact ⟨hf.1, hf.2.2⟩

theorem C1_patch_frame_witness :
    c1ast.length = c1ast.length ∧
    ∀ j, c1ast.get? j = c1ast.get? j ∨
      ∃ stk idx nd nd', c1ast.get? j = some nd ∧ c1ast.get? j = some nd' ∧ nd.kind ≠ "wsc" ∧
        compare_and_set_value c1tree c1tree stk idx nd = .ok (nd', true) :=
  C1_patch_frame (show update_ast_nodes 60 c1ast c1tree c1tree "p" [] [] = .ok c1ast from rfl)

/-- C2: with empty adds/deletes and equal before/after trees (duplicate-free,
as CPython dicts are), the patch pass returns the token sequence unchanged. -/
theorem C2_patch_identity {fuel : Nat} {ast out : List ASTNode} {t : PyVal} {part : String}
    (hnd : noDupV t = true)
    (h : update_ast_nodes fuel ast t t part [] [] = .ok out) :
    update_ast_nodes fuel ast t t part [] [] = .ok ast := by
  have hf := update_ast_nodes_frame h
  have hout : out = ast := by
    apply List.ext_get?
    intro j
    rcases hf.2.2 j with heq | ⟨stk, idx, nd, nd', hget, hout, hk, hcmp⟩
    · exact heq
    · have h2 := compare_self hnd hcmp
      rw [hout, hget]
      exact congrArg some h2
  rw [hout] at h
  exact h

theorem C2_patch_identity_witness :
    update_ast_nodes 60 c1ast c1tree c1tree "p" [] [] = .ok c1ast :=
  @C2_patch_identity 60 c1ast c1ast c1tree "p" (by decide) rfl

/-- C3 (counterexample to the claim as stated): a number changing from
1.00005 to 1.00004 IS flagged changed — the two values differ already at
32-bit float precision — while 1.0 to 1.0001 is flagged changed as well. -/
theorem C3_float32_counterexample :
    (compare_and_set_value (plL [.pfloat 100005 100000]) (plL [.pfloat 100004 100000])
      [] (.pint 0) numNode).toOption.map Prod.snd = some true ∧
    to_c_float 100005 100000 ≠ to_c_float 100004 100000 ∧
    (compare_and_set_value (plL [.pfloat 1 1]) (plL [.pfloat 10001 10000])
      [] (.pint 0) numNode).toOption.map Prod.snd = some true :=
  ⟨rfl, by decide, rfl⟩

/-- C3 (amended): for a number token the change flag is set exactly when the
old value is non-numeric, or the new value is numeric and the two values
differ both at `c_float` precision and under Python `==`; for any other
token the comparison is exact Python `==`. -/
theorem C3_flag_characterization {before after : PyVal} {st : List (PyVal × Bool)}
    {idx : PyVal} {node nd' : ASTNode} {c : Bool} {old new : PyVal}
    (hold : pathIndex before st idx = some old)
    (hnew : pathIndex after st idx = some new)
    (h : compare_and_set_value before after st idx node = .ok (nd', c)) :
    (node.kind = "number" →
      (c = true ↔ ((isPyInt old = false ∧ isPyFloat old = false) ∨
        ((isPyInt new = true ∨ isPyFloat new = true) ∧
          toCFloatV old ≠ toCFloatV new ∧ pyEq old new = false)))) ∧
    (node.kind ≠ "number" → (c = true ↔ pyEq old new = false)) := by
  unfold compare_and_set_value at h
  rw [hold, hnew] at h
  dsimp only at h
  constructor
  · intro hk
    rw [if_pos hk] at h
    split at h
    · rename_i hcond
      have h2 := Except.ok.inj h
      simp only [Prod.mk.injEq] at h2
      refine iff_of_true h2.2.symm ?_
      simpa [Bool.not_eq_true] using hcond
    · rename_i hcond
      have h2 := Except.ok.inj h
      simp only [Prod.mk.injEq] at h2
      refine iff_of_false (by rw [← h2.2]; simp) ?_
      intro hcc
      exact hcond (by simpa [Bool.not_eq_true] using hcc)
  · intro hk
    rw [if_neg hk] at h
    split at h
    · rename_i hpe
      have h2 := Except.ok.inj h
      simp only [Prod.mk.injEq] at h2
      exact iff_of_true h2.2.symm (by simpa [Bool.not_eq_true] using hpe)
    · rename_i hpe
      have h2 := Except.ok.inj h
      simp only [Prod.mk.injEq] at h2
      refine iff_of_false (by rw [← h2.2]; simp) ?_
      intro hcc
      exact hpe (by simp [hcc])

theorem C3_flag_characterization_witness :
    (numNode.kind = "number" →
      ((true : Bool) = true ↔
        ((isPyInt (PyVal.pfloat 100005 100000) = false ∧
          isPyFloat (PyVal.pfloat 100005 100000) = false) ∨
         ((isPyInt (PyVal.pfloat 100004 100000) = true ∨
           isPyFloat (PyVal.pfloat 100004 100000) = true) ∧
          toCFloatV (PyVal.pfloat 100005 100000) ≠ toCFloatV (PyVal.pfloat 100004 100000) ∧
          pyEq (PyVal.pfloat 100005 100000) (PyVal.pfloat 100004 100000) = false)))) ∧
    (numNode.kind ≠ "number" →
      ((true : Bool) = true ↔
        pyEq (PyVal.pfloat 100005 100000) (PyVal.pfloat 100004 100000) = false)) :=
  C3_flag_characterization
    (show pathIndex (plL [.pfloat 100005 100000]) [] (.pint 0)
      = some (.pfloat 100005 100000) from rfl)
    (show pathIndex (plL [.pfloat 100004 100000]) [] (.pint 0)
      = some (.pfloat 100004 100000) from rfl)
    (show compare_and_set_value (plL [.pfloat 100005 100000]) (plL [.pfloat 100004 100000])
      [] (.pint 0) numNode
      = .ok (set_number_node numNode (.pfloat 100004 100000), true) from rfl)

/-- C4 (code bug): when two delete-candidates share one position and a single
add-candidate resolves it, the fallback executes `nodes_to_delete.pop(None)`
and raises `KeyError` instead of skipping the ambiguous position; with the
position ambiguous on both sides it correctly records nothing and leaves all
candidates as independent adds/deletes. -/
theorem C4_ambiguous_delete_crash :
    rename_by_position [("a1", p001), ("a2", p001)] [("b1", p001)] = .error () ∧
    rename_by_position [("a1", p001), ("a2", p001)] [("b1", p001), ("b2", p001)]
      = .ok ([], [("a1", p001), ("a2", p001)], [("b1", p001), ("b2", p001)]) :=
  ⟨rfl, rfl⟩

/-- C6: a bare-map row merges into the running options accumulator and
affects only later rows: processing `[["id","x"],["n1",1],{"group":"X"},["n2",2]]`
yields an entry for `n1` without a `group` field and an entry for `n2` whose
`group` field is `"X"`. -/
theorem C6_forward_only_overlay :
    process_table_with_schema_destructive [] c6table .pnone = .ok c6out ∧
    c6out.ret = 2 ∧
    (pyLookup (.ks "n1") c6out.out).isSome = true ∧
    ((pyLookup (.ks "n1") c6out.out).bind fun row =>
      match row with
      | .pdict d => pyLookup (.ks "group") d
      | _ => none) = none ∧
    ((pyLookup (.ks "n2") c6out.out).bind fun row =>
      match row with
      | .pdict d => pyLookup (.ks "group") d
      | _ => none) = some (.pstr "X") :=
  ⟨rfl, rfl, rfl, rfl, rfl⟩

theorem C5_failure_sentinel_witness :
    (c5out.ret = -1 ↔ specTableFails c5tbl = true) :=
  @C5_failure_sentinel [] c5tbl .pnone c5out rfl rfl

theorem C7_memoized_replay_witness :
    process_table_with_schema_destructive c6out.memo c6table .pnone
      = .ok ⟨c6out.memo, c6table, none, c6out.out, c6out.ret⟩ :=
  @C7_memoized_replay [] c6table .pnone c6out rfl rfl (by decide)

theorem C10_nonatomic_mutation_witness :
    ((∃ hd, c5out.header = some hd ∧ hd.getLast? = some (.pstr "options")) ∧
      c5out.table.length = c5rest.length) ∧ c5out.ret = -1 :=
  ⟨@C10_nonatomic_mutation [] c5hdr c5rest .pnone c5out rfl rfl, rfl⟩

/-- C8 (counterexample to the claim as stated): on a vehicle whose sparse-map
section holds a non-integer key the conversion reports failure, yet
`post_process` still returns success. -/
theorem C8_failure_swallowed :
    convert_dict_to_list_tables c8veh = none ∧
    post_process c8veh = .ok c8res ∧ c8res.1 = true :=
  ⟨rfl, rfl, rfl⟩

/-- C8 (amended): `post_process` discards the conversion's result entirely —
every call that completes without raising reports success, whatever the
conversion found. -/
theorem C8_post_process_always_true {veh : PyEntries} {r : Bool × PyEntries}
    (h : post_process veh = .ok r) : r.1 = true := by
  unfold post_process at h
  dsimp only at h
  rcases hc : check_node_references ((convert_dict_to_list_tables veh).getD veh) with _ | v2
  · rw [hc] at h
    exact Except.noConfusion h
  · rw [hc] at h
    dsimp only at h
    have h2 := Except.ok.inj h
    rw [← h2]

theorem C8_post_process_always_true_witness : c8res.1 = true :=
  @C8_post_process_always_true c8veh c8res rfl

/-- C9 (counterexample to the claim as stated): with a tab-indented table the
text after the most recent newline is a tab, but the separator prepended to
an inserted row is a newline plus one space — the scan only takes the
length of that text, and the indent is built from spaces. -/
theorem C9_tab_counterexample :
    specIndentText c9ast 6 26 = some "\t" ∧
    jbeamEntryIndent c9ast 6 28 = "\n " ∧
    "\n " ≠ "\n\t" ∧
    (add_jbeam_nodes c9ast 6 28 26 [("c", ((2, 1), (0, 1), (0, 1)))]).toOption.map
      (fun p => p.1.get? 27) = some (some ⟨"wsc", .pstr "\n ", 0⟩) :=
  ⟨rfl, rfl, by decide, rfl⟩

/-- C9 (amended): row insertion scans backward through separator tokens for
the most recent newline, and the prepended indent is a newline followed by
one space per character of the text following that newline — not that text
itself. -/
theorem C9_indent_from_scan {ast : List ASTNode} {secStart secEnd : Nat} {t : String}
    (h : specIndentText ast secStart (secEnd - 2) = some t) :
    jbeamEntryIndent ast secStart secEnd = "\n" ++ spaces t.length := by
  unfold jbeamEntryIndent
  rw [findIndentLvl_spec h]

theorem C9_indent_from_scan_witness :
    jbeamEntryIndent c9ast 6 28 = "\n" ++ spaces ("\t".length) :=
  @C9_indent_from_scan c9ast 6 28 "\t" rfl
